import Mathlib

/-!
Verification development for the WebRTC signaling server
(`server/signaling_server_v2.py`).

The server state is shallowly embedded: the two Python module-level dicts
`clients` (websocket -> session dict) and `rooms` (room id -> room dict)
become association lists over a connection handle (`Conn`, a natural
number standing in for a websocket object) and a room id (`String`).
Python dict semantics (insertion-ordered, key-unique) are mirrored by
first-occurrence lookup/update and delete-all erase; Python `set` fields
become duplicate-free lists built with `setAdd` / `List.filter`.

Outbound `websocket.send(json.dumps(...))` calls become
`(recipient, ServerMsg)` pairs accumulated in order; `ws.close()` calls
become entries of a `closes` list (the actual disconnect cleanup runs
later as a separate `Event.disconnect` step, exactly as the Python
close triggers the handler `finally` clause asynchronously).

The IRC chat bridge is an external network collaborator
(`irc_bridge.py`); every source-side use is guarded by
`if irc_bridge and ...`, and the module-level `irc_bridge` reference is
`None` until an actual network connection to the IRC server succeeds.
The embedding models the bridge as absent, so those guarded branches
are skipped; no interesting state or reply to a websocket client flows
through them.  The floating-point `timestamp` field of chat broadcasts
(wall-clock time) is likewise omitted.

Python truthiness is modelled faithfully wherever the source tests a
value with a bare `if`: `None` and the empty string are falsy
(`truthyOptStr`), which matters for room ids, passwords and usernames.
-/

namespace Sig

/-- Connection handle: one live websocket. -/
abbrev Conn := Nat

/-- One entry of the Python `clients` dict:
`{'id': str, 'room': Optional[str], 'username': str}`. -/
structure Session where
  id : String
  room : Option String
  username : String
deriving Repr, DecidableEq

/-- One entry of the Python `rooms` dict:
`{'users': Set[websocket], 'password': Optional[str] (a digest),
'irc_channel': Optional[str], 'moderator': Optional[str],
'banned': Set[str]}`. -/
structure Room where
  users : List Conn
  password : Option String
  irc_channel : Option String
  moderator : Option String
  banned : List String
deriving Repr, DecidableEq

/-- The two module-level dicts of the server. -/
structure ServerState where
  clients : List (Conn × Session)
  rooms : List (String × Room)
deriving Repr, DecidableEq

/-- Lookup of the first binding of a key (Python dict indexing). -/
def alistFind {α β : Type} [DecidableEq α] (k : α) : List (α × β) → Option β
  | [] => none
  | (k2, v) :: t => if k2 = k then some v else alistFind k t

/-- Update the first binding of a key, or append a new one
(Python dict assignment preserves insertion order). -/
def alistSet {α β : Type} [DecidableEq α] (k : α) (v : β) : List (α × β) → List (α × β)
  | [] => [(k, v)]
  | (k2, v2) :: t => if k2 = k then (k, v) :: t else (k2, v2) :: alistSet k v t

/-- Delete all bindings of a key (Python `del d[k]`; keys are unique in
every reachable state, so deleting all occurrences agrees). -/
def alistErase {α β : Type} [DecidableEq α] (k : α) : List (α × β) → List (α × β)
  | [] => []
  | (k2, v2) :: t => if k2 = k then alistErase k t else (k2, v2) :: alistErase k t

/-- Python `set.add` on a duplicate-free list. -/
def setAdd {α : Type} [DecidableEq α] (x : α) (l : List α) : List α :=
  if x ∈ l then l else l ++ [x]

/-- Python truthiness of an `Optional[str]`: `None` and `''` are falsy. -/
def truthyOptStr : Option String → Bool
  | none => false
  | some x => x ≠ ""

/-- Digest used for room passwords.  The source calls
`hashlib.sha256(password.encode()).hexdigest()`, an external library
primitive; it is modelled as an injective tagging function, which
preserves exactly what the server relies on (digest equality iff
password equality). -/
def hash_password (password : String) : String :=
  "sha256:" ++ password

/-- Messages a client sends to the server (the inbound envelope
catalogue, with required fields present and optional fields as
`Option`; malformed or unknown-type envelopes are logged and dropped
without touching state, so they are not represented). -/
inductive SigKind where
  | offer
  | answer
  | iceCandidate
deriving Repr, DecidableEq

inductive ClientMsg where
  | register (clientId : String) (username : Option String)
  | createRoom (roomId : String) (password : Option String) (ircChannel : Option String)
  | joinRoom (roomId : String) (password : Option String)
  | leaveRoom
  | chatMessage (message : String)
  | videoState (enabled : Bool)
  | audioState (enabled : Bool)
  | signal (kind : SigKind) (targetId : String) (payload : String)
  | kickUser (targetId : String)
  | banUser (targetId : String)
  | promoteModerator (targetId : String)
  | changeName (newUsername : String)
  | moderatorChangeName (targetId : String) (newUsername : String)
deriving Repr, DecidableEq

/-- Messages the server sends to a client (the outbound event
catalogue). -/
inductive ServerMsg where
  | registered (clientId : String) (username : Option String)
  | error (message : String)
  | passwordRequired (roomId : String)
  | roomJoined (roomId : String) (users : List (String × String)) (hasPassword : Bool)
      (ircChannel : Option String) (isModerator : Bool) (moderatorId : Option String)
  | userJoined (clientId : String) (username : String)
  | userLeft (clientId : String) (username : String)
  | chatMessage (username : String) (message : String)
  | videoState (clientId : String) (enabled : Bool)
  | audioState (clientId : String) (enabled : Bool)
  | signal (kind : SigKind) (senderId : String) (payload : String)
  | kicked (message : String)
  | banned (message : String)
  | nameChanged (clientId : String) (oldUsername : String) (newUsername : String)
  | nameChangedByModerator (newUsername : String)
  | youAreModerator
  | moderatorPromoted (moderatorId : String) (username : String)
deriving Repr, DecidableEq

/-- Result of handling one inbound event: the new state, the messages
sent (in order, with their recipient connection), and the connections
the server called `close()` on. -/
structure StepOut where
  state : ServerState
  sends : List (Conn × ServerMsg)
  closes : List Conn
deriving Repr, DecidableEq

/-- Source `register_client` (lines 181-188): creates or overwrites the
session; `username or f"User_{client_id[:8]}"` falls back on `None` or
the empty string. -/
def register_client (s : ServerState) (c : Conn) (clientId : String)
    (username : Option String) : ServerState :=
  let uname :=
    match username with
    | some u => if u = "" then "User_" ++ clientId.take 8 else u
    | none => "User_" ++ clientId.take 8
  { s with clients := alistSet c ⟨clientId, none, uname⟩ s.clients }

/-- Source `broadcast_to_room` (lines 369-382): sends to every member
of the room except the excluded connection, skipping members no longer
in `clients`. -/
def broadcast_to_room (s : ServerState) (roomId : String) (msg : ServerMsg)
    (exclude : Option Conn) : List (Conn × ServerMsg) :=
  match alistFind roomId s.rooms with
  | none => []
  | some r =>
      (r.users.filter
        (fun w => decide (some w ≠ exclude) && (alistFind w s.clients).isSome)).map
        (fun w => (w, msg))

/-- Source `relay_to_peer` lookup (lines 385-391): the first client in
dict order whose id matches. -/
def findByClientId (s : ServerState) (targetId : String) : Option Conn :=
  match s.clients.find? (fun p => decide (p.2.id = targetId)) with
  | some p => some p.1
  | none => none

/-- The target-search loop shared by kick/ban/promote/rename (for
example lines 507-514): first client in dict order whose id matches and
whose room equals the acting room. -/
def findTarget (s : ServerState) (targetId roomId : String) : Option (Conn × Session) :=
  s.clients.find? (fun p => decide (p.2.id = targetId) && decide (p.2.room = some roomId))

/-- Source `unregister_client` (lines 191-222): discard from the room,
broadcast user-left, delete the room if now empty, delete the session.
Returns the new state and the messages sent.  If the session's room
field names a missing room the whole room block is skipped
(`if room and room in rooms`). -/
def unregister_client (s : ServerState) (c : Conn) : ServerState × List (Conn × ServerMsg) :=
  match alistFind c s.clients with
  | none => (s, [])
  | some info =>
      match info.room with
      | some rid =>
          if rid = "" then
            ({ s with clients := alistErase c s.clients }, [])
          else
            match alistFind rid s.rooms with
            | some r =>
                let r2 : Room := { r with users := r.users.filter (fun w => w ≠ c) }
                let s1 : ServerState := { s with rooms := alistSet rid r2 s.rooms }
                let sends := broadcast_to_room s1 rid (.userLeft info.id info.username) (some c)
                let s2 : ServerState :=
                  if r2.users.isEmpty then { s1 with rooms := alistErase rid s1.rooms } else s1
                ({ s2 with clients := alistErase c s2.clients }, sends)
            | none => ({ s with clients := alistErase c s.clients }, [])
      | none => ({ s with clients := alistErase c s.clients }, [])

/-- Source `create_room` (lines 225-257): a no-op when the room id is
already present; otherwise inserts a fresh room.  An empty-string
password is falsy in Python so no digest is stored.  The chat-bridge
join/callback registration inside the same guard is an external
collaborator call with no effect on server state. -/
def create_room (s : ServerState) (roomId : String) (password : Option String)
    (ircChannel : Option String) (moderatorId : Option String) : ServerState :=
  if (alistFind roomId s.rooms).isSome then s
  else
    let r : Room :=
      ⟨[], if truthyOptStr password then (password.map hash_password) else none,
        ircChannel, moderatorId, []⟩
    { s with rooms := alistSet roomId r s.rooms }

/-- Source `leave_room` (lines 346-366): remove from the current room,
clear the session's room field, broadcast user-left, delete the room if
now empty.  Returns `none` when the session is unregistered (the Python
`clients[websocket]` raises `KeyError`); when the room field is falsy
or names a missing room the guarded block is skipped entirely and the
room field keeps its value. -/
def leave_room (s : ServerState) (c : Conn) : Option (ServerState × List (Conn × ServerMsg)) :=
  match alistFind c s.clients with
  | none => none
  | some info =>
      match info.room with
      | some rid =>
          if rid = "" then some (s, [])
          else
            match alistFind rid s.rooms with
            | some r =>
                let r2 : Room := { r with users := r.users.filter (fun w => w ≠ c) }
                let s1 : ServerState :=
                  { clients := alistSet c { info with room := none } s.clients,
                    rooms := alistSet rid r2 s.rooms }
                let sends := broadcast_to_room s1 rid (.userLeft info.id info.username) (some c)
                let s2 : ServerState :=
                  if r2.users.isEmpty then { s1 with rooms := alistErase rid s1.rooms } else s1
                some (s2, sends)
            | none => some (s, [])
      | none => some (s, [])

/-- Outcome discriminator for `join_room` (the Python function's send
and return behaviour; `crashed` marks the paths where the Python body
raises `KeyError`, which the message handler catches and logs). -/
inductive JoinOutcome where
  | roomNotFound
  | bannedUser
  | passwordRequiredO
  | incorrectPassword
  | joined
  | crashed
deriving Repr, DecidableEq

/-- Whether a stored password digest forces the password gate
(`if rooms[room_id]['password']:`, truthiness). -/
def requiredPw (h : Option String) : Bool := truthyOptStr h

/-- The leave-current-room preamble of the commit phase
(`if client_info['room']: await leave_room(websocket)`, line 299-300;
truthiness on the room field). -/
def leavePhase (s : ServerState) (c : Conn) (info : Session) :
    ServerState × List (Conn × ServerMsg) :=
  if truthyOptStr info.room then
    match leave_room s c with
    | some out => out
    | none => (s, [])
  else (s, [])

/-- The mutate-then-reply tail of `join_room` (lines 303-343), applied
once the target room has been re-indexed after the leave preamble. -/
def commitCore (s1 : ServerState) (c : Conn) (rid : String) (info1 : Session) (r1 : Room)
    (leaveSends : List (Conn × ServerMsg)) :
    ServerState × List (Conn × ServerMsg) × JoinOutcome :=
  let r2 : Room := { r1 with users := setAdd c r1.users }
  let s2 : ServerState :=
    { clients := alistSet c { info1 with room := some rid } s1.clients,
      rooms := alistSet rid r2 s1.rooms }
  let others :=
    (r2.users.filter (fun w => w ≠ c)).filterMap
      (fun w => (alistFind w s2.clients).map (fun j => (j.id, j.username)))
  let isMod := decide (r2.moderator = some info1.id)
  let joinedMsg :=
    ServerMsg.roomJoined rid others r2.password.isSome r2.irc_channel isMod r2.moderator
  let bsends := broadcast_to_room s2 rid (.userJoined info1.id info1.username) (some c)
  (s2, leaveSends ++ (c, joinedMsg) :: bsends, .joined)

/-- The commit phase of source `join_room` (lines 298-343): leave the
current room if the room field is truthy, re-index the target room
(which the leave may have deleted, raising `KeyError` on
`rooms[room_id]['users']` - the `crashed` outcome), add the connection,
set the session's room field, then reply and broadcast. -/
def joinCommit (s : ServerState) (c : Conn) (info : Session) (rid : String) :
    ServerState × List (Conn × ServerMsg) × JoinOutcome :=
  let lp := leavePhase s c info
  match alistFind c lp.1.clients, alistFind rid lp.1.rooms with
  | some info1, some r1 => commitCore lp.1 c rid info1 r1 lp.2
  | _, _ => (lp.1, lp.2, .crashed)

/-- Source `join_room` (lines 260-343): the ordered short-circuit
checks (room exists, not banned, password gate) followed by the commit
phase. -/
def join_room (s : ServerState) (c : Conn) (rid : String) (pw : Option String) :
    ServerState × List (Conn × ServerMsg) × JoinOutcome :=
  match alistFind c s.clients with
  | none => (s, [], .crashed)
  | some info =>
      match alistFind rid s.rooms with
      | none => (s, [(c, .error "Room does not exist")], .roomNotFound)
      | some r =>
          if info.id ∈ r.banned then
            (s, [(c, .error "You have been banned from this room")], .bannedUser)
          else if requiredPw r.password then
            if ¬ truthyOptStr pw then
              (s, [(c, .passwordRequired rid)], .passwordRequiredO)
            else if pw.map hash_password ≠ r.password then
              (s, [(c, .error "Incorrect password")], .incorrectPassword)
            else joinCommit s c info rid
          else joinCommit s c info rid

/-- Result of the moderator gate
`if room and rooms[room]['moderator'] == client_info['id']`:
`granted` carries the acting room; `denied` sends the only-moderator
error; `crashedGate` marks a truthy room id missing from the directory
(the `rooms[room]` index would raise). -/
inductive ModGate where
  | granted (rid : String) (r : Room)
  | denied
  | crashedGate
deriving Repr, DecidableEq

def modGate (s : ServerState) (info : Session) : ModGate :=
  match info.room with
  | none => .denied
  | some rid =>
      if rid = "" then .denied
      else
        match alistFind rid s.rooms with
        | none => .crashedGate
        | some r => if r.moderator = some info.id then .granted rid r else .denied

/-- Source `handle_message` (lines 394-657): the dispatch on the
envelope type.  Paths where the Python body raises (`KeyError` on an
unregistered sender or a vanished room) return the state and sends
accumulated up to the raise, because the surrounding
`except Exception` catches and only logs. -/
def handle_message (s : ServerState) (c : Conn) (m : ClientMsg) : StepOut :=
  match m with
  | .register cid uname =>
      ⟨register_client s c cid uname, [(c, .registered cid uname)], []⟩
  | .createRoom rid pw irc =>
      match alistFind c s.clients with
      | none => ⟨s, [], []⟩
      | some info =>
          let s1 := create_room s rid pw irc (some info.id)
          let out := join_room s1 c rid pw
          ⟨out.1, out.2.1, []⟩
  | .joinRoom rid pw =>
      let s1 := if (alistFind rid s.rooms).isNone then create_room s rid none none none else s
      let out := join_room s1 c rid pw
      ⟨out.1, out.2.1, []⟩
  | .leaveRoom =>
      match leave_room s c with
      | some out => ⟨out.1, out.2, []⟩
      | none => ⟨s, [], []⟩
  | .chatMessage msg =>
      match alistFind c s.clients with
      | none => ⟨s, [], []⟩
      | some info =>
          if truthyOptStr info.room then
            match info.room with
            | some rid =>
                ⟨s, broadcast_to_room s rid (.chatMessage info.username msg) none, []⟩
            | none => ⟨s, [], []⟩
          else ⟨s, [], []⟩
  | .videoState b =>
      match alistFind c s.clients with
      | none => ⟨s, [], []⟩
      | some info =>
          if truthyOptStr info.room then
            match info.room with
            | some rid =>
                ⟨s, broadcast_to_room s rid (.videoState info.id b) (some c), []⟩
            | none => ⟨s, [], []⟩
          else ⟨s, [], []⟩
  | .audioState b =>
      match alistFind c s.clients with
      | none => ⟨s, [], []⟩
      | some info =>
          if truthyOptStr info.room then
            match info.room with
            | some rid =>
                ⟨s, broadcast_to_room s rid (.audioState info.id b) (some c), []⟩
            | none => ⟨s, [], []⟩
          else ⟨s, [], []⟩
  | .signal k tid payload =>
      match alistFind c s.clients with
      | none => ⟨s, [], []⟩
      | some info =>
          match findByClientId s tid with
          | some w => ⟨s, [(w, .signal k info.id payload)], []⟩
          | none => ⟨s, [], []⟩
  | .kickUser tid =>
      match alistFind c s.clients with
      | none => ⟨s, [], []⟩
      | some info =>
          match modGate s info with
          | .granted rid _ =>
              match findTarget s tid rid with
              | some (w, _) =>
                  ⟨s, [(w, .kicked "You have been kicked from the room")], [w]⟩
              | none => ⟨s, [], []⟩
          | .denied => ⟨s, [(c, .error "Only moderator can kick users")], []⟩
          | .crashedGate => ⟨s, [], []⟩
  | .banUser tid =>
      match alistFind c s.clients with
      | none => ⟨s, [], []⟩
      | some info =>
          match modGate s info with
          | .granted rid r =>
              let r2 : Room := { r with banned := setAdd tid r.banned }
              let s1 : ServerState := { s with rooms := alistSet rid r2 s.rooms }
              match findTarget s1 tid rid with
              | some (w, _) =>
                  ⟨s1, [(w, .banned "You have been banned from this room")], [w]⟩
              | none => ⟨s1, [], []⟩
          | .denied => ⟨s, [(c, .error "Only moderator can ban users")], []⟩
          | .crashedGate => ⟨s, [], []⟩
  | .promoteModerator tid =>
      match alistFind c s.clients with
      | none => ⟨s, [], []⟩
      | some info =>
          match modGate s info with
          | .granted rid _ =>
              -- Faithful to the source: the branch notifies, broadcasts
              -- and logs, but never assigns rooms[room]['moderator'].
              match findTarget s tid rid with
              | some (w, j) =>
                  ⟨s, (w, .youAreModerator) ::
                      broadcast_to_room s rid (.moderatorPromoted tid j.username) none, []⟩
              | none => ⟨s, [], []⟩
          | .denied => ⟨s, [(c, .error "Only moderator can promote users")], []⟩
          | .crashedGate => ⟨s, [], []⟩
  | .changeName newUsername =>
      match alistFind c s.clients with
      | none => ⟨s, [], []⟩
      | some info =>
          let nm := newUsername.trim
          if nm ≠ "" ∧ truthyOptStr info.room then
            match info.room with
            | some rid =>
                let s1 : ServerState :=
                  { s with clients := alistSet c { info with username := nm } s.clients }
                ⟨s1, broadcast_to_room s1 rid (.nameChanged info.id info.username nm) (some c), []⟩
            | none => ⟨s, [], []⟩
          else ⟨s, [], []⟩
  | .moderatorChangeName tid newUsername =>
      match alistFind c s.clients with
      | none => ⟨s, [], []⟩
      | some info =>
          match modGate s info with
          | .granted rid _ =>
              let nm := newUsername.trim
              if nm = "" then ⟨s, [], []⟩
              else
                match findTarget s tid rid with
                | some (w, j) =>
                    let s1 : ServerState :=
                      { s with clients := alistSet w { j with username := nm } s.clients }
                    ⟨s1, (w, .nameChangedByModerator nm) ::
                        broadcast_to_room s1 rid (.nameChanged tid j.username nm) none, []⟩
                | none => ⟨s, [], []⟩
          | .denied => ⟨s, [(c, .error "Only moderator can change user names")], []⟩
          | .crashedGate => ⟨s, [], []⟩

/-- One observable event at the server: an inbound envelope on a
connection, or a transport disconnect (which runs the handler
`finally` clause, i.e. `unregister_client`). -/
inductive Event where
  | msg (c : Conn) (m : ClientMsg)
  | disconnect (c : Conn)
deriving Repr, DecidableEq

def step (s : ServerState) : Event → StepOut
  | .msg c m => handle_message s c m
  | .disconnect c =>
      let p := unregister_client s c
      ⟨p.1, p.2, []⟩

def initialState : ServerState := ⟨[], []⟩

/-- Run a sequence of events, keeping only the resulting state. -/
def runEvents (s : ServerState) (es : List Event) : ServerState :=
  es.foldl (fun st e => (step st e).state) s

/-- The ban on clientId `tid` is recorded on room `rid` in state `s`. -/
def BanRecorded (s : ServerState) (rid tid : String) : Prop :=
  ∃ r, alistFind rid s.rooms = some r ∧ tid ∈ r.banned

/-- Room `rid` still exists after every step of the event sequence.
`bannedClientIds` is scoped to the room's lifetime - deleting the room
discards it, and a lazy re-creation starts with an empty banned set -
so ban persistence is stated along traces the room survives. -/
def roomLivesAlong (s : ServerState) (rid : String) : List Event → Bool
  | [] => true
  | e :: es =>
      (alistFind rid (step s e).state.rooms).isSome &&
        roomLivesAlong (step s e).state rid es

/-! Association-list lemmas. -/

section Alist

variable {α β : Type} [DecidableEq α]

theorem alistFind_set_self (k : α) (v : β) (l : List (α × β)) :
    alistFind k (alistSet k v l) = some v := by
  induction l with
  | nil => simp [alistFind, alistSet]
  | cons h t ih =>
      by_cases hk : h.1 = k <;> simp [alistFind, alistSet, hk, ih]

theorem alistFind_set_ne {k k2 : α} (h : k2 ≠ k) (v : β) (l : List (α × β)) :
    alistFind k2 (alistSet k v l) = alistFind k2 l := by
  induction l with
  | nil => simp [alistFind, alistSet, Ne.symm h]
  | cons hd t ih =>
      by_cases hk : hd.1 = k
      · subst hk
        simp [alistFind, alistSet, Ne.symm h]
      · by_cases hk2 : hd.1 = k2 <;> simp [alistFind, alistSet, hk, hk2, ih, h]

theorem alistFind_erase_self (k : α) (l : List (α × β)) :
    alistFind k (alistErase k l) = none := by
  induction l with
  | nil => simp [alistFind, alistErase]
  | cons hd t ih =>
      by_cases hk : hd.1 = k <;> simp [alistFind, alistErase, hk, ih]

theorem alistFind_erase_ne {k k2 : α} (h : k2 ≠ k) (l : List (α × β)) :
    alistFind k2 (alistErase k l) = alistFind k2 l := by
  induction l with
  | nil => simp [alistFind, alistErase]
  | cons hd t ih =>
      by_cases hk : hd.1 = k
      · subst hk
        simp [alistFind, alistErase, Ne.symm h, ih]
      · by_cases hk2 : hd.1 = k2 <;> simp [alistFind, alistErase, hk, hk2, ih, h]

theorem mem_setAdd {x y : α} {l : List α} : x ∈ setAdd y l ↔ x ∈ l ∨ x = y := by
  by_cases hy : y ∈ l
  · simp only [setAdd, if_pos hy]
    constructor
    · exact fun h => Or.inl h
    · rintro (h | rfl) <;> assumption
  · simp [setAdd, if_neg hy]

theorem setAdd_ne_nil (x : α) (l : List α) : setAdd x l ≠ [] := by
  by_cases hx : x ∈ l
  · simp only [setAdd, if_pos hx]
    intro h
    subst h
    simp at hx
  · simp [setAdd, if_neg hx]

/-- Keys of an association list. -/
def keys (l : List (α × β)) : List α := l.map Prod.fst

theorem mem_keys_of_mem_keys_set {k x : α} {v : β} {l : List (α × β)}
    (h : x ∈ keys (alistSet k v l)) : x = k ∨ x ∈ keys l := by
  induction l with
  | nil => simpa [keys, alistSet] using h
  | cons hd t ih =>
      by_cases hk : hd.1 = k
      · subst hk
        simpa [keys, alistSet] using h
      · simp only [alistSet, if_neg hk, keys, List.map_cons, List.mem_cons] at h
        rcases h with h | h
        · exact Or.inr (by simp [keys, h])
        · rcases ih h with h2 | h2
          · exact Or.inl h2
          · exact Or.inr (by simp [keys] at h2 ⊢; exact Or.inr h2)

theorem nodup_keys_set {k : α} {v : β} {l : List (α × β)}
    (h : (keys l).Nodup) : (keys (alistSet k v l)).Nodup := by
  induction l with
  | nil => simp [keys, alistSet]
  | cons hd t ih =>
      simp only [keys, List.map_cons, List.nodup_cons] at h
      by_cases hk : hd.1 = k
      · subst hk
        simpa [keys, alistSet, List.nodup_cons] using h
      · simp only [alistSet, if_neg hk, keys, List.map_cons, List.nodup_cons]
        refine ⟨fun hmem => ?_, ih h.2⟩
        rcases mem_keys_of_mem_keys_set (by simpa [keys] using hmem) with h2 | h2
        · exact hk h2
        · exact h.1 (by simpa [keys] using h2)

theorem mem_keys_of_mem_keys_erase {k x : α} {l : List (α × β)}
    (h : x ∈ keys (alistErase k l)) : x ∈ keys l := by
  induction l with
  | nil => simp [keys, alistErase] at h
  | cons hd t ih =>
      by_cases hk : hd.1 = k
      · simp only [alistErase, if_pos hk] at h
        have h2 := ih h
        simp only [keys, List.map_cons, List.mem_cons]
        exact Or.inr (by simpa [keys] using h2)
      · simp only [alistErase, if_neg hk, keys, List.map_cons, List.mem_cons] at h
        rcases h with h | h
        · simp [keys, h]
        · simp [keys]
          exact Or.inr (by simpa [keys] using ih h)

theorem nodup_keys_erase {k : α} {l : List (α × β)}
    (h : (keys l).Nodup) : (keys (alistErase k l)).Nodup := by
  induction l with
  | nil => simp [keys, alistErase]
  | cons hd t ih =>
      simp only [keys, List.map_cons, List.nodup_cons] at h
      by_cases hk : hd.1 = k
      · simp only [alistErase, if_pos hk]
        exact ih h.2
      · simp only [alistErase, if_neg hk, keys, List.map_cons, List.nodup_cons]
        exact ⟨fun hmem => h.1 (by simpa [keys] using mem_keys_of_mem_keys_erase hmem), ih h.2⟩

theorem alistFind_of_mem_nodup {k : α} {v : β} {l : List (α × β)}
    (hnd : (keys l).Nodup) (h : (k, v) ∈ l) : alistFind k l = some v := by
  induction l with
  | nil => simp at h
  | cons hd t ih =>
      simp only [keys, List.map_cons, List.nodup_cons] at hnd
      rcases List.mem_cons.mp h with h | h
      · subst h
        simp [alistFind]
      · have hk : hd.1 ≠ k := by
          intro he
          exact hnd.1 (by subst he; simpa [keys] using List.mem_map_of_mem Prod.fst h)
        simp [alistFind, hk, ih hnd.2 h]

theorem mem_of_alistFind {k : α} {v : β} {l : List (α × β)}
    (h : alistFind k l = some v) : (k, v) ∈ l := by
  induction l with
  | nil => simp [alistFind] at h
  | cons hd t ih =>
      by_cases hk : hd.1 = k
      · simp only [alistFind, if_pos hk] at h
        have he : hd = (k, v) := by
          cases hd
          simp_all
        rw [he]
        exact List.mem_cons_self _ _
      · simp only [alistFind, if_neg hk] at h
        exact List.mem_cons_of_mem _ (ih h)

end Alist

/-! State invariants relating the session registry and the room
directory, and the event discipline under which the source maintains
them. -/

/-- Every member connection of every room has a registered session
whose room field names that room. -/
def RoomsToClients (s : ServerState) : Prop :=
  ∀ rid r c, alistFind rid s.rooms = some r → c ∈ r.users →
    ∃ i, alistFind c s.clients = some i ∧ i.room = some rid

/-- Every registered session whose room field names a room is a member
connection of that room, and the room exists. -/
def ClientsToRooms (s : ServerState) : Prop :=
  ∀ c i rid, alistFind c s.clients = some i → i.room = some rid →
    ∃ r, alistFind rid s.rooms = some r ∧ c ∈ r.users

/-- No room in the directory has an empty member set. -/
def NoEmptyRooms (s : ServerState) : Prop :=
  ∀ rid r, alistFind rid s.rooms = some r → r.users ≠ []

/-- As `NoEmptyRooms` but exempting one room id (used across the
window in which `create_room` has inserted a fresh empty room that the
immediately following `join_room` populates). -/
def NoEmptyRoomsExcept (x : String) (s : ServerState) : Prop :=
  ∀ rid r, rid ≠ x → alistFind rid s.rooms = some r → r.users ≠ []

/-- No session's room field is the empty string (the empty string is
falsy in Python, so such a reference would silently escape every
`if room:` guard). -/
def NoBlankRoomRef (s : ServerState) : Prop :=
  ∀ c i, alistFind c s.clients = some i → i.room ≠ some ""

/-- Both registries have duplicate-free key lists (Python dicts). -/
def NodupKeys (s : ServerState) : Prop :=
  (keys s.clients).Nodup ∧ (keys s.rooms).Nodup

/-- The combined state invariant. -/
def Inv (s : ServerState) : Prop :=
  NodupKeys s ∧ RoomsToClients s ∧ ClientsToRooms s ∧ NoEmptyRooms s ∧ NoBlankRoomRef s

/-- The event discipline under which the server maintains `Inv`:
a register envelope only from a connection not currently in a room, a
join-room envelope only from a registered connection, and create/join
room ids that are not the empty string.  The counterexamples for C3
and C4 show that dropping these side conditions lets single envelopes
break the invariants. -/
def okEvent (s : ServerState) : Event → Prop
  | .msg c (.register _ _) => ∀ i, alistFind c s.clients = some i → i.room = none
  | .msg c (.joinRoom rid _) => rid ≠ "" ∧ (alistFind c s.clients).isSome
  | .msg _ (.createRoom rid _ _) => rid ≠ ""
  | _ => True

/-- States reachable from the empty server by disciplined events. -/
inductive Reachable : ServerState → Prop where
  | init : Reachable initialState
  | step {s : ServerState} (e : Event) : Reachable s → okEvent s e → Reachable (step s e).state

/-- Leaving a room preserves the registry/directory correspondence; no
room entry survives with fewer members than one unless it already
existed untouched; and when the leaving session had a truthy room
field its room field is cleared. -/
theorem leave_room_inv {s : ServerState} {c : Conn} {s2 : ServerState}
    {out : List (Conn × ServerMsg)}
    (hND : NodupKeys s) (hRC : RoomsToClients s) (hCR : ClientsToRooms s)
    (hNB : NoBlankRoomRef s)
    (h : leave_room s c = some (s2, out)) :
    NodupKeys s2 ∧ RoomsToClients s2 ∧ ClientsToRooms s2 ∧ NoBlankRoomRef s2 ∧
    (∀ rid r, alistFind rid s2.rooms = some r → r.users ≠ [] ∨ alistFind rid s.rooms = some r) ∧
    (∀ info, alistFind c s.clients = some info → truthyOptStr info.room →
      ∀ i2, alistFind c s2.clients = some i2 → i2.room = none) ∧
    (∃ i2, alistFind c s2.clients = some i2) := by
  rcases hc : alistFind c s.clients with _ | info
  · simp [leave_room, hc] at h
  rcases hrm : info.room with _ | rid
  · simp [leave_room, hc, hrm] at h
    obtain ⟨h1, h2⟩ := h
    subst h1
    refine ⟨hND, hRC, hCR, hNB, fun rid r hfr => Or.inr hfr, ?_, ⟨info, hc⟩⟩
    intro info0 hfi0 htr i2 hfi2
    exfalso
    have hii : info0 = info := by
      injection hfi0 with hx
      exact hx.symm
    subst hii
    rw [hrm] at htr
    simp [truthyOptStr] at htr
  by_cases hrid : rid = ""
  · subst hrid
    simp [leave_room, hc, hrm] at h
    obtain ⟨h1, h2⟩ := h
    subst h1
    refine ⟨hND, hRC, hCR, hNB, fun rid r hfr => Or.inr hfr, ?_, ⟨info, hc⟩⟩
    intro info0 hfi0 htr i2 hfi2
    exfalso
    have hii : info0 = info := by
      injection hfi0 with hx
      exact hx.symm
    subst hii
    rw [hrm] at htr
    simp [truthyOptStr] at htr
  rcases hr : alistFind rid s.rooms with _ | r
  · simp only [leave_room, hc, hrm, if_neg hrid, hr] at h
    exact absurd (hCR c info rid hc hrm) (by simp [hr])
  -- main branch: the session really leaves room `rid`
  have hfilter :
      ∀ c2, c2 ∈ r.users.filter (fun w => w ≠ c) ↔ c2 ∈ r.users ∧ c2 ≠ c := by
    intro c2
    simp [List.mem_filter]
  by_cases he : (r.users.filter (fun w => w ≠ c)).isEmpty
  · -- the room empties and is deleted
    simp only [leave_room, hc, hrm, if_neg hrid, hr] at h
    rw [if_pos he, Option.some_inj, Prod.mk.injEq] at h
    obtain ⟨h1, h2⟩ := h
    subst h1
    have hemp : r.users.filter (fun w => w ≠ c) = [] := by
      simpa [List.isEmpty_iff] using he
    constructor
    · exact ⟨nodup_keys_set hND.1, nodup_keys_erase (nodup_keys_set hND.2)⟩
    constructor
    · -- RoomsToClients
      intro rid2 r2 c2 hfr hmem
      by_cases h3 : rid2 = rid
      · subst h3
        simp [alistFind_erase_self] at hfr
      · rw [alistFind_erase_ne h3, alistFind_set_ne h3] at hfr
        obtain ⟨i2, hfi2, hirm⟩ := hRC rid2 r2 c2 hfr hmem
        have hc2 : c2 ≠ c := by
          intro hcc
          subst hcc
          rw [hc] at hfi2
          have hii : i2 = info := by
            injection hfi2 with hx
            exact hx.symm
          subst hii
          rw [hrm] at hirm
          exact h3 (Option.some_inj.mp hirm).symm
        rw [alistFind_set_ne hc2]
        exact ⟨i2, hfi2, hirm⟩
    constructor
    · -- ClientsToRooms
      intro c2 i2 rid2 hfc hirm
      by_cases h2c : c2 = c
      · subst h2c
        rw [alistFind_set_self] at hfc
        have hii : i2 = { info with room := none } := by
          injection hfc with hx
          exact hx.symm
        subst hii
        simp at hirm
      · rw [alistFind_set_ne h2c] at hfc
        obtain ⟨r0, hr0, hm0⟩ := hCR c2 i2 rid2 hfc hirm
        by_cases h3 : rid2 = rid
        · subst h3
          rw [hr] at hr0
          have hrr : r0 = r := by
            injection hr0 with hx
            exact hx.symm
          subst hrr
          have hmemf := (hfilter c2).mpr ⟨hm0, h2c⟩
          rw [hemp] at hmemf
          simp at hmemf
        · rw [alistFind_erase_ne h3, alistFind_set_ne h3]
          exact ⟨r0, hr0, hm0⟩
    constructor
    · -- NoBlankRoomRef
      intro c2 i2 hfc
      by_cases h2c : c2 = c
      · subst h2c
        rw [alistFind_set_self] at hfc
        have hii : i2 = { info with room := none } := by
          injection hfc with hx
          exact hx.symm
        subst hii
        simp
      · rw [alistFind_set_ne h2c] at hfc
        exact hNB c2 i2 hfc
    constructor
    · -- room-entry transfer
      intro rid2 r2 hfr
      by_cases h3 : rid2 = rid
      · subst h3
        simp [alistFind_erase_self] at hfr
      · rw [alistFind_erase_ne h3, alistFind_set_ne h3] at hfr
        exact Or.inr hfr
    · constructor
      · -- the leaver's room field is cleared
        intro info0 hfi0 htr i2 hfi2
        rw [alistFind_set_self] at hfi2
        have hii : i2 = { info with room := none } := by
          injection hfi2 with hx
          exact hx.symm
        subst hii
        rfl
      · -- the leaver's session still exists
        exact ⟨_, alistFind_set_self c _ _⟩
  · -- the room keeps other members
    simp only [leave_room, hc, hrm, if_neg hrid, hr] at h
    rw [if_neg he, Option.some_inj, Prod.mk.injEq] at h
    obtain ⟨h1, h2⟩ := h
    subst h1
    have hne2 : r.users.filter (fun w => w ≠ c) ≠ [] := by
      simpa [List.isEmpty_iff] using he
    constructor
    · exact ⟨nodup_keys_set hND.1, nodup_keys_set hND.2⟩
    constructor
    · -- RoomsToClients
      intro rid2 r2 c2 hfr hmem
      by_cases h3 : rid2 = rid
      · subst h3
        rw [alistFind_set_self] at hfr
        have hrr : r2 = { r with users := r.users.filter (fun w => w ≠ c) } := by
          injection hfr with hx
          exact hx.symm
        subst hrr
        obtain ⟨hm0, hc2⟩ := (hfilter c2).mp hmem
        obtain ⟨i2, hfi2, hirm⟩ := hRC _ _ c2 hr hm0
        rw [alistFind_set_ne hc2]
        exact ⟨i2, hfi2, hirm⟩
      · rw [alistFind_set_ne h3] at hfr
        obtain ⟨i2, hfi2, hirm⟩ := hRC rid2 r2 c2 hfr hmem
        have hc2 : c2 ≠ c := by
          intro hcc
          subst hcc
          rw [hc] at hfi2
          have hii : i2 = info := by
            injection hfi2 with hx
            exact hx.symm
          subst hii
          rw [hrm] at hirm
          exact h3 (Option.some_inj.mp hirm).symm
        rw [alistFind_set_ne hc2]
        exact ⟨i2, hfi2, hirm⟩
    constructor
    · -- ClientsToRooms
      intro c2 i2 rid2 hfc hirm
      by_cases h2c : c2 = c
      · subst h2c
        rw [alistFind_set_self] at hfc
        have hii : i2 = { info with room := none } := by
          injection hfc with hx
          exact hx.symm
        subst hii
        simp at hirm
      · rw [alistFind_set_ne h2c] at hfc
        obtain ⟨r0, hr0, hm0⟩ := hCR c2 i2 rid2 hfc hirm
        by_cases h3 : rid2 = rid
        · subst h3
          rw [hr] at hr0
          have hrr : r0 = r := by
            injection hr0 with hx
            exact hx.symm
          subst hrr
          rw [alistFind_set_self]
          exact ⟨_, rfl, (hfilter c2).mpr ⟨hm0, h2c⟩⟩
        · rw [alistFind_set_ne h3]
          exact ⟨r0, hr0, hm0⟩
    constructor
    · -- NoBlankRoomRef
      intro c2 i2 hfc
      by_cases h2c : c2 = c
      · subst h2c
        rw [alistFind_set_self] at hfc
        have hii : i2 = { info with room := none } := by
          injection hfc with hx
          exact hx.symm
        subst hii
        simp
      · rw [alistFind_set_ne h2c] at hfc
        exact hNB c2 i2 hfc
    constructor
    · -- room-entry transfer
      intro rid2 r2 hfr
      by_cases h3 : rid2 = rid
      · subst h3
        rw [alistFind_set_self] at hfr
        have hrr : r2 = { r with users := r.users.filter (fun w => w ≠ c) } := by
          injection hfr with hx
          exact hx.symm
        subst hrr
        exact Or.inl hne2
      · rw [alistFind_set_ne h3] at hfr
        exact Or.inr hfr
    · constructor
      · -- the leaver's room field is cleared
        intro info0 hfi0 htr i2 hfi2
        rw [alistFind_set_self] at hfi2
        have hii : i2 = { info with room := none } := by
          injection hfi2 with hx
          exact hx.symm
        subst hii
        rfl
      · -- the leaver's session still exists
        exact ⟨_, alistFind_set_self c _ _⟩

/-- Disconnect cleanup preserves the combined invariant. -/
theorem unregister_client_inv {s : ServerState} {c : Conn} (hInv : Inv s) :
    Inv (unregister_client s c).1 := by
  obtain ⟨hND, hRC, hCR, hNE, hNB⟩ := hInv
  rcases hc : alistFind c s.clients with _ | info
  · simp only [unregister_client, hc]
    exact ⟨hND, hRC, hCR, hNE, hNB⟩
  -- common facts for the branches that only erase the session
  have eraseOnly :
      (∀ rid2 r2 c2, alistFind rid2 s.rooms = some r2 → c2 ∈ r2.users → c2 ≠ c) →
      Inv { s with clients := alistErase c s.clients } := by
    intro hnomem
    refine ⟨⟨nodup_keys_erase hND.1, hND.2⟩, ?_, ?_, hNE, ?_⟩
    · intro rid2 r2 c2 hfr hmem
      have hc2 : c2 ≠ c := hnomem rid2 r2 c2 hfr hmem
      obtain ⟨i2, hfi2, hirm⟩ := hRC rid2 r2 c2 hfr hmem
      simp only [alistFind_erase_ne hc2]
      exact ⟨i2, hfi2, hirm⟩
    · intro c2 i2 rid2 hfc hirm
      by_cases h2c : c2 = c
      · rw [h2c] at hfc
        simp [alistFind_erase_self] at hfc
      · simp only [alistFind_erase_ne h2c] at hfc
        exact hCR c2 i2 rid2 hfc hirm
    · intro c2 i2 hfc
      by_cases h2c : c2 = c
      · rw [h2c] at hfc
        simp [alistFind_erase_self] at hfc
      · simp only [alistFind_erase_ne h2c] at hfc
        exact hNB c2 i2 hfc
  rcases hrm : info.room with _ | rid
  · -- no current room
    simp only [unregister_client, hc, hrm]
    refine eraseOnly ?_
    intro rid2 r2 c2 hfr hmem hcc
    subst hcc
    obtain ⟨i2, hfi2, hirm⟩ := hRC rid2 r2 c2 hfr hmem
    rw [hc] at hfi2
    have hii : i2 = info := by
      injection hfi2 with hx
      exact hx.symm
    subst hii
    rw [hrm] at hirm
    cases hirm
  by_cases hrid : rid = ""
  · -- a blank room reference is excluded by NoBlankRoomRef
    subst hrid
    exact absurd hrm (hNB c info hc)
  rcases hr : alistFind rid s.rooms with _ | r
  · -- dangling room reference: excluded by ClientsToRooms
    exact absurd (hCR c info rid hc hrm) (by simp [hr])
  -- main branch: really removed from room `rid`
  have hfilter :
      ∀ c2, c2 ∈ r.users.filter (fun w => w ≠ c) ↔ c2 ∈ r.users ∧ c2 ≠ c := by
    intro c2
    simp [List.mem_filter]
  simp only [unregister_client, hc, hrm, if_neg hrid, hr]
  by_cases he : (r.users.filter (fun w => w ≠ c)).isEmpty
  · rw [if_pos he]
    have hemp : r.users.filter (fun w => w ≠ c) = [] := by
      simpa [List.isEmpty_iff] using he
    refine ⟨⟨nodup_keys_erase hND.1, nodup_keys_erase (nodup_keys_set hND.2)⟩, ?_, ?_, ?_, ?_⟩
    · -- RoomsToClients
      intro rid2 r2 c2 hfr hmem
      by_cases h3 : rid2 = rid
      · subst h3
        simp [alistFind_erase_self] at hfr
      · rw [show (alistErase rid (alistSet rid { r with
          users := r.users.filter (fun w => w ≠ c) } s.rooms)) =
          alistErase rid (alistSet rid { r with
          users := r.users.filter (fun w => w ≠ c) } s.rooms) from rfl] at hfr
        rw [alistFind_erase_ne h3, alistFind_set_ne h3] at hfr
        obtain ⟨i2, hfi2, hirm⟩ := hRC rid2 r2 c2 hfr hmem
        have hc2 : c2 ≠ c := by
          intro hcc
          subst hcc
          rw [hc] at hfi2
          have hii : i2 = info := by
            injection hfi2 with hx
            exact hx.symm
          subst hii
          rw [hrm] at hirm
          exact h3 (Option.some_inj.mp hirm).symm
        rw [alistFind_erase_ne hc2]
        exact ⟨i2, hfi2, hirm⟩
    · -- ClientsToRooms
      intro c2 i2 rid2 hfc hirm
      by_cases h2c : c2 = c
      · subst h2c
        rw [alistFind_erase_self] at hfc
        cases hfc
      · rw [alistFind_erase_ne h2c] at hfc
        obtain ⟨r0, hr0, hm0⟩ := hCR c2 i2 rid2 hfc hirm
        by_cases h3 : rid2 = rid
        · subst h3
          rw [hr] at hr0
          have hrr : r0 = r := by
            injection hr0 with hx
            exact hx.symm
          subst hrr
          have hmemf := (hfilter c2).mpr ⟨hm0, h2c⟩
          rw [hemp] at hmemf
          simp at hmemf
        · rw [alistFind_erase_ne h3, alistFind_set_ne h3]
          exact ⟨r0, hr0, hm0⟩
    · -- NoEmptyRooms
      intro rid2 r2 hfr
      by_cases h3 : rid2 = rid
      · subst h3
        simp [alistFind_erase_self] at hfr
      · rw [alistFind_erase_ne h3, alistFind_set_ne h3] at hfr
        exact hNE rid2 r2 hfr
    · -- NoBlankRoomRef
      intro c2 i2 hfc
      by_cases h2c : c2 = c
      · subst h2c
        rw [alistFind_erase_self] at hfc
        cases hfc
      · rw [alistFind_erase_ne h2c] at hfc
        exact hNB c2 i2 hfc
  · rw [if_neg he]
    have hne2 : r.users.filter (fun w => w ≠ c) ≠ [] := by
      simpa [List.isEmpty_iff] using he
    refine ⟨⟨nodup_keys_erase hND.1, nodup_keys_set hND.2⟩, ?_, ?_, ?_, ?_⟩
    · -- RoomsToClients
      intro rid2 r2 c2 hfr hmem
      by_cases h3 : rid2 = rid
      · subst h3
        rw [alistFind_set_self] at hfr
        have hrr : r2 = { r with users := r.users.filter (fun w => w ≠ c) } := by
          injection hfr with hx
          exact hx.symm
        subst hrr
        obtain ⟨hm0, hc2⟩ := (hfilter c2).mp hmem
        obtain ⟨i2, hfi2, hirm⟩ := hRC _ _ c2 hr hm0
        rw [alistFind_erase_ne hc2]
        exact ⟨i2, hfi2, hirm⟩
      · rw [alistFind_set_ne h3] at hfr
        obtain ⟨i2, hfi2, hirm⟩ := hRC rid2 r2 c2 hfr hmem
        have hc2 : c2 ≠ c := by
          intro hcc
          subst hcc
          rw [hc] at hfi2
          have hii : i2 = info := by
            injection hfi2 with hx
            exact hx.symm
          subst hii
          rw [hrm] at hirm
          exact h3 (Option.some_inj.mp hirm).symm
        rw [alistFind_erase_ne hc2]
        exact ⟨i2, hfi2, hirm⟩
    · -- ClientsToRooms
      intro c2 i2 rid2 hfc hirm
      by_cases h2c : c2 = c
      · subst h2c
        rw [alistFind_erase_self] at hfc
        cases hfc
      · rw [alistFind_erase_ne h2c] at hfc
        obtain ⟨r0, hr0, hm0⟩ := hCR c2 i2 rid2 hfc hirm
        by_cases h3 : rid2 = rid
        · subst h3
          rw [hr] at hr0
          have hrr : r0 = r := by
            injection hr0 with hx
            exact hx.symm
          subst hrr
          rw [alistFind_set_self]
          exact ⟨_, rfl, (hfilter c2).mpr ⟨hm0, h2c⟩⟩
        · rw [alistFind_set_ne h3]
          exact ⟨r0, hr0, hm0⟩
    · -- NoEmptyRooms
      intro rid2 r2 hfr
      by_cases h3 : rid2 = rid
      · subst h3
        rw [alistFind_set_self] at hfr
        have hrr : r2 = { r with users := r.users.filter (fun w => w ≠ c) } := by
          injection hfr with hx
          exact hx.symm
        subst hrr
        exact hne2
      · rw [alistFind_set_ne h3] at hfr
        exact hNE rid2 r2 hfr
    · -- NoBlankRoomRef
      intro c2 i2 hfc
      by_cases h2c : c2 = c
      · subst h2c
        rw [alistFind_erase_self] at hfc
        cases hfc
      · rw [alistFind_erase_ne h2c] at hfc
        exact hNB c2 i2 hfc

/-- Registration preserves the invariant, provided the connection was
not currently in a room (re-registering an in-room connection breaks
the correspondence; see the counterexample for C3). -/
theorem register_client_inv {s : ServerState} {c : Conn} {cid : String} {un : Option String}
    (hInv : Inv s)
    (hok : ∀ i, alistFind c s.clients = some i → i.room = none) :
    Inv (register_client s c cid un) := by
  obtain ⟨hND, hRC, hCR, hNE, hNB⟩ := hInv
  refine ⟨⟨nodup_keys_set hND.1, hND.2⟩, ?_, ?_, hNE, ?_⟩
  · intro rid2 r2 c2 hfr hmem
    obtain ⟨i2, hfi2, hirm⟩ := hRC rid2 r2 c2 hfr hmem
    have hc2 : c2 ≠ c := by
      intro hcc
      subst hcc
      rw [hok i2 hfi2] at hirm
      cases hirm
    simp only [register_client, alistFind_set_ne hc2]
    exact ⟨i2, hfi2, hirm⟩
  · intro c2 i2 rid2 hfc hirm
    by_cases h2c : c2 = c
    · rw [h2c] at hfc
      simp only [register_client, alistFind_set_self] at hfc
      have hroomi : i2.room = none := by
        rw [← Option.some_inj.mp hfc]
      rw [hroomi] at hirm
      cases hirm
    · simp only [register_client, alistFind_set_ne h2c] at hfc
      exact hCR c2 i2 rid2 hfc hirm
  · intro c2 i2 hfc
    by_cases h2c : c2 = c
    · rw [h2c] at hfc
      simp only [register_client, alistFind_set_self] at hfc
      have hroomi : i2.room = none := by
        rw [← Option.some_inj.mp hfc]
      rw [hroomi]
      simp
    · simp only [register_client, alistFind_set_ne h2c] at hfc
      exact hNB c2 i2 hfc

/-- Creating an already-present room is a complete no-op. -/
theorem create_room_existing {s : ServerState} {rid : String}
    {pw irc mid : Option String} (h : (alistFind rid s.rooms).isSome) :
    create_room s rid pw irc mid = s := by
  simp [create_room, h]

theorem create_room_clients (s : ServerState) (rid : String)
    (pw irc mid : Option String) :
    (create_room s rid pw irc mid).clients = s.clients := by
  unfold create_room
  split <;> rfl

theorem create_room_find_self {s : ServerState} {rid : String}
    {pw irc mid : Option String} (h : alistFind rid s.rooms = none) :
    alistFind rid (create_room s rid pw irc mid).rooms =
      some ⟨[], if truthyOptStr pw then pw.map hash_password else none, irc, mid, []⟩ := by
  simp [create_room, h, alistFind_set_self]

theorem create_room_find_ne {s : ServerState} {rid rid2 : String}
    {pw irc mid : Option String} (h : rid2 ≠ rid) :
    alistFind rid2 (create_room s rid pw irc mid).rooms = alistFind rid2 s.rooms := by
  unfold create_room
  split
  · rfl
  · simp [alistFind_set_ne h]

/-- Creating a fresh room preserves everything except that the new room
is momentarily empty. -/
theorem create_room_fresh_inv {s : ServerState} {rid : String}
    {pw irc mid : Option String} (hInv : Inv s) (hfresh : alistFind rid s.rooms = none) :
    NodupKeys (create_room s rid pw irc mid) ∧
    RoomsToClients (create_room s rid pw irc mid) ∧
    ClientsToRooms (create_room s rid pw irc mid) ∧
    NoBlankRoomRef (create_room s rid pw irc mid) ∧
    NoEmptyRoomsExcept rid (create_room s rid pw irc mid) := by
  obtain ⟨hND, hRC, hCR, hNE, hNB⟩ := hInv
  have hrooms : (create_room s rid pw irc mid).rooms =
      alistSet rid ⟨[], if truthyOptStr pw then pw.map hash_password else none, irc, mid, []⟩
        s.rooms := by
    simp [create_room, hfresh]
  have hclients := create_room_clients s rid pw irc mid
  refine ⟨⟨by rw [hclients]; exact hND.1, by rw [hrooms]; exact nodup_keys_set hND.2⟩,
    ?_, ?_, ?_, ?_⟩
  · intro rid2 r2 c2 hfr hmem
    rw [hrooms] at hfr
    by_cases h3 : rid2 = rid
    · subst h3
      rw [alistFind_set_self] at hfr
      have hrr : r2 = ⟨[], if truthyOptStr pw then pw.map hash_password else none,
          irc, mid, []⟩ := by
        injection hfr with hx
        exact hx.symm
      subst hrr
      simp at hmem
    · rw [alistFind_set_ne h3] at hfr
      rw [hclients]
      exact hRC rid2 r2 c2 hfr hmem
  · intro c2 i2 rid2 hfc hirm
    rw [hclients] at hfc
    obtain ⟨r0, hr0, hm0⟩ := hCR c2 i2 rid2 hfc hirm
    have h3 : rid2 ≠ rid := by
      intro hcc
      subst hcc
      rw [hfresh] at hr0
      cases hr0
    rw [hrooms, alistFind_set_ne h3]
    exact ⟨r0, hr0, hm0⟩
  · intro c2 i2 hfc
    rw [hclients] at hfc
    exact hNB c2 i2 hfc
  · intro rid2 r2 h3 hfr
    rw [hrooms, alistFind_set_ne h3] at hfr
    exact hNE rid2 r2 hfr

/-- The commit phase of a join restores the full invariant. -/
theorem commitCore_inv {s1 : ServerState} {c : Conn} {rid : String}
    {info1 : Session} {r1 : Room} {lsends : List (Conn × ServerMsg)}
    (hND : NodupKeys s1) (hRC : RoomsToClients s1) (hCR : ClientsToRooms s1)
    (hNB : NoBlankRoomRef s1) (hNEx : NoEmptyRoomsExcept rid s1)
    (hfind : alistFind c s1.clients = some info1)
    (hnoroom : info1.room = none)
    (hne : rid ≠ "")
    (hr1 : alistFind rid s1.rooms = some r1) :
    Inv (commitCore s1 c rid info1 r1 lsends).1 := by
  have hstate : (commitCore s1 c rid info1 r1 lsends).1 =
      { clients := alistSet c { info1 with room := some rid } s1.clients,
        rooms := alistSet rid { r1 with users := setAdd c r1.users } s1.rooms } := rfl
  rw [hstate]
  have hcnotmem : c ∉ r1.users := by
    intro hmem
    obtain ⟨i2, hfi2, hirm⟩ := hRC rid r1 c hr1 hmem
    rw [hfind] at hfi2
    have hii : i2 = info1 := by
      injection hfi2 with hx
      exact hx.symm
    subst hii
    rw [hnoroom] at hirm
    cases hirm
  refine ⟨⟨nodup_keys_set hND.1, nodup_keys_set hND.2⟩, ?_, ?_, ?_, ?_⟩
  · -- RoomsToClients
    intro rid2 r2 c2 hfr hmem
    by_cases h3 : rid2 = rid
    · subst h3
      rw [alistFind_set_self] at hfr
      have hrr : r2 = { r1 with users := setAdd c r1.users } := by
        injection hfr with hx
        exact hx.symm
      subst hrr
      rcases mem_setAdd.mp hmem with hm | hm
      · have hc2 : c2 ≠ c := by
          intro hcc
          subst hcc
          exact hcnotmem hm
        rw [alistFind_set_ne hc2]
        obtain ⟨i2, hfi2, hirm⟩ := hRC _ _ c2 hr1 hm
        exact ⟨i2, hfi2, hirm⟩
      · subst hm
        rw [alistFind_set_self]
        exact ⟨_, rfl, rfl⟩
    · rw [alistFind_set_ne h3] at hfr
      obtain ⟨i2, hfi2, hirm⟩ := hRC rid2 r2 c2 hfr hmem
      have hc2 : c2 ≠ c := by
        intro hcc
        subst hcc
        rw [hfind] at hfi2
        have hii : i2 = info1 := by
          injection hfi2 with hx
          exact hx.symm
        subst hii
        rw [hnoroom] at hirm
        cases hirm
      rw [alistFind_set_ne hc2]
      exact ⟨i2, hfi2, hirm⟩
  · -- ClientsToRooms
    intro c2 i2 rid2 hfc hirm
    by_cases h2c : c2 = c
    · subst h2c
      rw [alistFind_set_self] at hfc
      have hii : i2 = { info1 with room := some rid } := by
        injection hfc with hx
        exact hx.symm
      subst hii
      simp only [Session.room] at hirm
      have h3 : rid2 = rid := by
        injection hirm with hx
        exact hx.symm
      subst h3
      rw [alistFind_set_self]
      exact ⟨_, rfl, mem_setAdd.mpr (Or.inr rfl)⟩
    · rw [alistFind_set_ne h2c] at hfc
      obtain ⟨r0, hr0, hm0⟩ := hCR c2 i2 rid2 hfc hirm
      by_cases h3 : rid2 = rid
      · subst h3
        have hrr : r0 = r1 := Option.some_inj.mp (hr0.symm.trans hr1)
        subst hrr
        rw [alistFind_set_self]
        exact ⟨_, rfl, mem_setAdd.mpr (Or.inl hm0)⟩
      · rw [alistFind_set_ne h3]
        exact ⟨r0, hr0, hm0⟩
  · -- NoEmptyRooms
    intro rid2 r2 hfr
    by_cases h3 : rid2 = rid
    · subst h3
      rw [alistFind_set_self] at hfr
      have hrr : r2 = { r1 with users := setAdd c r1.users } := by
        injection hfr with hx
        exact hx.symm
      subst hrr
      simp only
      exact setAdd_ne_nil c r1.users
    · rw [alistFind_set_ne h3] at hfr
      exact hNEx rid2 r2 h3 hfr
  · -- NoBlankRoomRef
    intro c2 i2 hfc
    by_cases h2c : c2 = c
    · rw [h2c, alistFind_set_self] at hfc
      have hii : i2 = { info1 with room := some rid } := by
        injection hfc with hx
        exact hx.symm
      subst hii
      simp only [Session.room, ne_eq, Option.some.injEq]
      exact fun hcc => hne hcc
    · rw [alistFind_set_ne h2c] at hfc
      exact hNB c2 i2 hfc

/-- With a registered session, `leave_room` always returns (the Python
body cannot raise). -/
theorem leave_room_isSome {s : ServerState} {c : Conn} {info : Session}
    (hfind : alistFind c s.clients = some info) : (leave_room s c).isSome := by
  unfold leave_room
  rw [hfind]
  rcases hrm : info.room with _ | rid
  · simp [hrm]
  · by_cases hrid : rid = ""
    · simp [hrm, hrid]
    · rcases hr : alistFind rid s.rooms with _ | r
      · simp [hrm, hrid, hr]
      · simp [hrm, hrid, hr]

/-- The full join commit (leave preamble plus room mutation) restores
the invariant from a state whose only possible defect is that the
target room is empty. -/
theorem joinCommit_inv {s : ServerState} {c : Conn} {info : Session} {rid : String}
    (hND : NodupKeys s) (hRC : RoomsToClients s) (hCR : ClientsToRooms s)
    (hNB : NoBlankRoomRef s) (hNEx : NoEmptyRoomsExcept rid s)
    (hfind : alistFind c s.clients = some info) (hne : rid ≠ "") :
    Inv (joinCommit s c info rid).1 := by
  by_cases htr : truthyOptStr info.room
  · -- the session leaves its current room first
    rcases hlv : leave_room s c with _ | p
    · exact absurd (leave_room_isSome hfind) (by simp [hlv])
    obtain ⟨s2, ls⟩ := p
    obtain ⟨hND2, hRC2, hCR2, hNB2, htrans, hclr, ⟨i1, hfi1⟩⟩ :=
      leave_room_inv hND hRC hCR hNB hlv
    have hclr1 : i1.room = none := hclr info hfind htr i1 hfi1
    have hlp : leavePhase s c info = (s2, ls) := by
      simp [leavePhase, htr, hlv]
    have hNEx2 : NoEmptyRoomsExcept rid s2 := by
      intro rid2 r2 h3 hfr
      rcases htrans rid2 r2 hfr with h | h
      · exact h
      · exact hNEx rid2 r2 h3 h
    rcases hroom2 : alistFind rid s2.rooms with _ | r1
    · -- the leave deleted the target room: KeyError, state stays put
      simp only [joinCommit, hlp, hfi1, hroom2]
      refine ⟨hND2, hRC2, hCR2, ?_, hNB2⟩
      intro rid2 r2 hfr
      by_cases h3 : rid2 = rid
      · subst h3
        rw [hroom2] at hfr
        cases hfr
      · exact hNEx2 rid2 r2 h3 hfr
    · simp only [joinCommit, hlp, hfi1, hroom2]
      exact commitCore_inv hND2 hRC2 hCR2 hNB2 hNEx2 hfi1 hclr1 hne hroom2
  · -- no current room to leave
    have hlp : leavePhase s c info = (s, []) := by
      simp [leavePhase, htr]
    have hnoroom : info.room = none := by
      rcases hrm : info.room with _ | x
      · rfl
      · rw [hrm] at htr
        simp [truthyOptStr] at htr
        subst htr
        exact absurd hrm (hNB c info hfind)
    rcases hroom : alistFind rid s.rooms with _ | r1
    · simp only [joinCommit, hlp, hfind, hroom]
      refine ⟨hND, hRC, hCR, ?_, hNB⟩
      intro rid2 r2 hfr
      by_cases h3 : rid2 = rid
      · subst h3
        rw [hroom] at hfr
        cases hfr
      · exact hNEx rid2 r2 h3 hfr
    · simp only [joinCommit, hlp, hfind, hroom]
      exact commitCore_inv hND hRC hCR hNB hNEx hfind hnoroom hne hroom

theorem hash_password_ne_empty (p : String) : hash_password p ≠ "" := by
  intro h
  have h2 := congrArg String.data h
  rw [hash_password, String.data_append] at h2
  exact absurd (List.append_eq_nil.mp h2).1 (by decide)

/-- What a granted moderator gate implies. -/
theorem modGate_granted {s : ServerState} {info : Session} {rid : String} {r : Room}
    (h : modGate s info = .granted rid r) :
    info.room = some rid ∧ rid ≠ "" ∧ alistFind rid s.rooms = some r ∧
      r.moderator = some info.id := by
  unfold modGate at h
  rcases hrm : info.room with _ | rid0 <;> rw [hrm] at h
  · cases h
  by_cases hrid : rid0 = ""
  · simp [hrid] at h
  rcases hr : alistFind rid0 s.rooms with _ | r0
  · simp [hrid, hr] at h
  by_cases hmod : r0.moderator = some info.id
  · simp [hrid, hr, hmod] at h
    obtain ⟨h1, h2⟩ := h
    subst h1
    subst h2
    exact ⟨rfl, hrid, hr, hmod⟩
  · simp [hrid, hr, hmod] at h

/-- What a successful target search implies (under unique keys). -/
theorem findTarget_spec {s : ServerState} {tid rid : String} {w : Conn} {j : Session}
    (hnd : (keys s.clients).Nodup) (h : findTarget s tid rid = some (w, j)) :
    alistFind w s.clients = some j ∧ j.id = tid ∧ j.room = some rid := by
  unfold findTarget at h
  have hmem := List.mem_of_find?_eq_some h
  have hpred := List.find?_some h
  simp only [Bool.and_eq_true, decide_eq_true_eq] at hpred
  exact ⟨alistFind_of_mem_nodup hnd hmem, hpred.1, hpred.2⟩

/-- Replacing one room entry without touching its member list preserves
the invariant (used for the ban-list update). -/
theorem inv_set_room_samefields {s : ServerState} {rid : String} {r r2 : Room}
    (hInv : Inv s) (hr : alistFind rid s.rooms = some r) (husers : r2.users = r.users) :
    Inv { s with rooms := alistSet rid r2 s.rooms } := by
  obtain ⟨hND, hRC, hCR, hNE, hNB⟩ := hInv
  refine ⟨⟨hND.1, nodup_keys_set hND.2⟩, ?_, ?_, ?_, hNB⟩
  · intro rid2 r3 c2 hfr hmem
    by_cases h3 : rid2 = rid
    · subst h3
      rw [alistFind_set_self] at hfr
      have hrr : r3 = r2 := by
        injection hfr with hx
        exact hx.symm
      subst hrr
      rw [husers] at hmem
      exact hRC rid2 r c2 hr hmem
    · rw [alistFind_set_ne h3] at hfr
      exact hRC rid2 r3 c2 hfr hmem
  · intro c2 i2 rid2 hfc hirm
    obtain ⟨r0, hr0, hm0⟩ := hCR c2 i2 rid2 hfc hirm
    by_cases h3 : rid2 = rid
    · subst h3
      have hrr : r0 = r := Option.some_inj.mp (hr0.symm.trans hr)
      subst hrr
      rw [alistFind_set_self]
      exact ⟨r2, rfl, husers ▸ hm0⟩
    · rw [alistFind_set_ne h3]
      exact ⟨r0, hr0, hm0⟩
  · intro rid2 r3 hfr
    by_cases h3 : rid2 = rid
    · subst h3
      rw [alistFind_set_self] at hfr
      have hrr : r3 = r2 := by
        injection hfr with hx
        exact hx.symm
      subst hrr
      rw [husers]
      exact hNE rid2 r hr
    · rw [alistFind_set_ne h3] at hfr
      exact hNE rid2 r3 hfr

/-- Replacing a session with one holding the same room reference (a
rename, by self or by a moderator) preserves the invariant. -/
theorem inv_set_session_room_eq {s : ServerState} {w : Conn} {j j2 : Session}
    (hInv : Inv s) (hfw : alistFind w s.clients = some j)
    (hroom : j2.room = j.room) :
    Inv { s with clients := alistSet w j2 s.clients } := by
  obtain ⟨hND, hRC, hCR, hNE, hNB⟩ := hInv
  refine ⟨⟨nodup_keys_set hND.1, hND.2⟩, ?_, ?_, hNE, ?_⟩
  · intro rid2 r2 c2 hfr hmem
    obtain ⟨i2, hfi2, hirm⟩ := hRC rid2 r2 c2 hfr hmem
    by_cases h2c : c2 = w
    · subst h2c
      have hii : i2 = j := Option.some_inj.mp (hfi2.symm.trans hfw)
      subst hii
      rw [alistFind_set_self]
      refine ⟨j2, rfl, ?_⟩
      rw [hroom]
      exact hirm
    · rw [alistFind_set_ne h2c]
      exact ⟨i2, hfi2, hirm⟩
  · intro c2 i2 rid2 hfc hirm
    by_cases h2c : c2 = w
    · subst h2c
      rw [alistFind_set_self] at hfc
      have hii : i2 = j2 := by
        injection hfc with hx
        exact hx.symm
      subst hii
      rw [hroom] at hirm
      exact hCR c2 j rid2 hfw hirm
    · rw [alistFind_set_ne h2c] at hfc
      exact hCR c2 i2 rid2 hfc hirm
  · intro c2 i2 hfc
    by_cases h2c : c2 = w
    · subst h2c
      rw [alistFind_set_self] at hfc
      have hii : i2 = j2 := by
        injection hfc with hx
        exact hx.symm
      subst hii
      rw [hroom]
      exact hNB c2 j hfw
    · rw [alistFind_set_ne h2c] at hfc
      exact hNB c2 i2 hfc

/-- The state part of a completed `leave_room` satisfies the full
invariant. -/
theorem leave_room_inv_full {s : ServerState} {c : Conn} {s2 : ServerState}
    {out : List (Conn × ServerMsg)} (hInv : Inv s)
    (h : leave_room s c = some (s2, out)) : Inv s2 := by
  obtain ⟨hND, hRC, hCR, hNE, hNB⟩ := hInv
  obtain ⟨hND2, hRC2, hCR2, hNB2, htrans, hclr, hex⟩ := leave_room_inv hND hRC hCR hNB h
  refine ⟨hND2, hRC2, hCR2, ?_, hNB2⟩
  intro rid2 r2 hfr
  rcases htrans rid2 r2 hfr with h2 | h2
  · exact h2
  · exact hNE rid2 r2 h2

/-- Join into an existing room preserves the invariant (every failure
path returns the state untouched; success runs the commit). -/
theorem join_room_inv {s1 : ServerState} {c : Conn} {rid : String} {pw : Option String}
    {info : Session}
    (hND : NodupKeys s1) (hRC : RoomsToClients s1) (hCR : ClientsToRooms s1)
    (hNB : NoBlankRoomRef s1) (hNE : NoEmptyRooms s1)
    (hfind : alistFind c s1.clients = some info) (hne : rid ≠ "") :
    Inv (join_room s1 c rid pw).1 := by
  have hNEx : NoEmptyRoomsExcept rid s1 := fun rid2 r2 _ hfr => hNE rid2 r2 hfr
  rcases hroom : alistFind rid s1.rooms with _ | r
  · have hgoal : (join_room s1 c rid pw).1 = s1 := by
      simp [join_room, hfind, hroom]
    rw [hgoal]
    exact ⟨hND, hRC, hCR, hNE, hNB⟩
  by_cases hban : info.id ∈ r.banned
  · have hgoal : (join_room s1 c rid pw).1 = s1 := by
      simp [join_room, hfind, hroom, hban]
    rw [hgoal]
    exact ⟨hND, hRC, hCR, hNE, hNB⟩
  by_cases hreq : requiredPw r.password
  · by_cases htp : truthyOptStr pw
    · by_cases hmatch : pw.map hash_password ≠ r.password
      · have hgoal : (join_room s1 c rid pw).1 = s1 := by
          simp [join_room, hfind, hroom, hban, hreq, htp, hmatch]
        rw [hgoal]
        exact ⟨hND, hRC, hCR, hNE, hNB⟩
      · have hgoal : join_room s1 c rid pw = joinCommit s1 c info rid := by
          simp [join_room, hfind, hroom, hban, hreq, htp, hmatch]
        rw [hgoal]
        exact joinCommit_inv hND hRC hCR hNB hNEx hfind hne
    · have hgoal : (join_room s1 c rid pw).1 = s1 := by
        simp [join_room, hfind, hroom, hban, hreq, htp]
      rw [hgoal]
      exact ⟨hND, hRC, hCR, hNE, hNB⟩
  · have hgoal : join_room s1 c rid pw = joinCommit s1 c info rid := by
      simp [join_room, hfind, hroom, hban, hreq]
    rw [hgoal]
    exact joinCommit_inv hND hRC hCR hNB hNEx hfind hne

/-- Join into a freshly created (still empty) room: the checks cannot
fail, so the commit always runs and restores the invariant. -/
theorem join_room_fresh_inv {s1 : ServerState} {c : Conn} {rid : String} {pw : Option String}
    {info : Session} {r1 : Room}
    (hND : NodupKeys s1) (hRC : RoomsToClients s1) (hCR : ClientsToRooms s1)
    (hNB : NoBlankRoomRef s1) (hNEx : NoEmptyRoomsExcept rid s1)
    (hfind : alistFind c s1.clients = some info) (hne : rid ≠ "")
    (hr1 : alistFind rid s1.rooms = some r1)
    (hban : info.id ∉ r1.banned)
    (hpw : requiredPw r1.password = true →
      truthyOptStr pw = true ∧ pw.map hash_password = r1.password) :
    Inv (join_room s1 c rid pw).1 := by
  by_cases hreq : requiredPw r1.password
  · obtain ⟨htp, hmatch⟩ := hpw hreq
    have hgoal : join_room s1 c rid pw = joinCommit s1 c info rid := by
      simp [join_room, hfind, hr1, hban, hreq, htp, hmatch]
    rw [hgoal]
    exact joinCommit_inv hND hRC hCR hNB hNEx hfind hne
  · have hgoal : join_room s1 c rid pw = joinCommit s1 c info rid := by
      simp [join_room, hfind, hr1, hban, hreq]
    rw [hgoal]
    exact joinCommit_inv hND hRC hCR hNB hNEx hfind hne

theorem initial_inv : Inv initialState := by
  refine ⟨⟨by simp [keys, initialState], by simp [keys, initialState]⟩, ?_, ?_, ?_, ?_⟩
  · intro rid r c hfr hmem
    simp [initialState, alistFind] at hfr
  · intro c i rid hfc hirm
    simp [initialState, alistFind] at hfc
  · intro rid r hfr
    simp [initialState, alistFind] at hfr
  · intro c i hfc
    simp [initialState, alistFind] at hfc

/-! State-equality facts for the purely read-only message kinds. -/

theorem handle_chat_state (s : ServerState) (c : Conn) (msg : String) :
    (handle_message s c (.chatMessage msg)).state = s := by
  unfold handle_message
  rcases hc : alistFind c s.clients with _ | info
  · rfl
  · by_cases htr : truthyOptStr info.room
    · rcases hrm : info.room with _ | rid
      · rw [hrm] at htr
        simp [truthyOptStr] at htr
      · rw [hrm] at htr
        dsimp only
        rw [hrm]
        simp [htr]
    · simp [htr]

theorem handle_video_state (s : ServerState) (c : Conn) (b : Bool) :
    (handle_message s c (.videoState b)).state = s := by
  unfold handle_message
  rcases hc : alistFind c s.clients with _ | info
  · rfl
  · by_cases htr : truthyOptStr info.room
    · rcases hrm : info.room with _ | rid
      · rw [hrm] at htr
        simp [truthyOptStr] at htr
      · rw [hrm] at htr
        dsimp only
        rw [hrm]
        simp [htr]
    · simp [htr]

theorem handle_audio_state (s : ServerState) (c : Conn) (b : Bool) :
    (handle_message s c (.audioState b)).state = s := by
  unfold handle_message
  rcases hc : alistFind c s.clients with _ | info
  · rfl
  · by_cases htr : truthyOptStr info.room
    · rcases hrm : info.room with _ | rid
      · rw [hrm] at htr
        simp [truthyOptStr] at htr
      · rw [hrm] at htr
        dsimp only
        rw [hrm]
        simp [htr]
    · simp [htr]

theorem handle_signal_state (s : ServerState) (c : Conn) (k : SigKind)
    (tid payload : String) :
    (handle_message s c (.signal k tid payload)).state = s := by
  unfold handle_message
  rcases hc : alistFind c s.clients with _ | info
  · rfl
  · rcases ht : findByClientId s tid with _ | w <;> simp [ht]

theorem handle_kick_state (s : ServerState) (c : Conn) (tid : String) :
    (handle_message s c (.kickUser tid)).state = s := by
  unfold handle_message
  rcases hc : alistFind c s.clients with _ | info
  · rfl
  · rcases hg : modGate s info with ⟨rid, r⟩ | _ | _
    · rcases ht : findTarget s tid rid with _ | ⟨w, j⟩ <;> simp [hg, ht]
    · simp [hg]
    · simp [hg]

theorem handle_promote_state (s : ServerState) (c : Conn) (tid : String) :
    (handle_message s c (.promoteModerator tid)).state = s := by
  unfold handle_message
  rcases hc : alistFind c s.clients with _ | info
  · rfl
  · rcases hg : modGate s info with ⟨rid, r⟩ | _ | _
    · rcases ht : findTarget s tid rid with _ | ⟨w, j⟩ <;> simp [hg, ht]
    · simp [hg]
    · simp [hg]

/-- Every handled envelope preserves the invariant, under the event
discipline of `okEvent`. -/
theorem handle_message_inv {s : ServerState} {c : Conn} {m : ClientMsg}
    (hInv : Inv s) (hok : okEvent s (.msg c m)) :
    Inv (handle_message s c m).state := by
  obtain ⟨hND, hRC, hCR, hNE, hNB⟩ := id hInv
  cases m with
  | register cid un =>
      exact register_client_inv hInv hok
  | createRoom rid pw irc =>
      have hne : rid ≠ "" := hok
      rcases hc : alistFind c s.clients with _ | info
      · simp only [handle_message, hc]
        exact hInv
      simp only [handle_message, hc]
      rcases hfresh : alistFind rid s.rooms with _ | r
      · obtain ⟨hND1, hRC1, hCR1, hNB1, hNEx1⟩ :=
          @create_room_fresh_inv s rid pw irc (some info.id) hInv hfresh
        have hfind1 : alistFind c (create_room s rid pw irc (some info.id)).clients =
            some info := by
          rw [create_room_clients]
          exact hc
        have hr1 := @create_room_find_self s rid pw irc (some info.id) hfresh
        refine join_room_fresh_inv hND1 hRC1 hCR1 hNB1 hNEx1 hfind1 hne hr1 (by simp) ?_
        intro hreqd
        by_cases htp : truthyOptStr pw
        · exact ⟨htp, by simp [htp]⟩
        · exfalso
          rcases pw with _ | p
          · simp [requiredPw, truthyOptStr] at hreqd
          · simp [truthyOptStr] at htp
            subst htp
            simp [requiredPw, truthyOptStr] at hreqd
      · rw [create_room_existing (by simp [hfresh])]
        exact join_room_inv hND hRC hCR hNB hNE hc hne
  | joinRoom rid pw =>
      obtain ⟨hne, hreg⟩ := hok
      rcases hc : alistFind c s.clients with _ | info
      · rw [hc] at hreg
        cases hreg
      simp only [handle_message]
      rcases hfresh : alistFind rid s.rooms with _ | r
      · simp only [hfresh, Option.isNone_none, if_true]
        obtain ⟨hND1, hRC1, hCR1, hNB1, hNEx1⟩ :=
          @create_room_fresh_inv s rid none none none hInv hfresh
        have hfind1 : alistFind c (create_room s rid none none none).clients =
            some info := by
          rw [create_room_clients]
          exact hc
        have hr1 := @create_room_find_self s rid none none none hfresh
        refine join_room_fresh_inv hND1 hRC1 hCR1 hNB1 hNEx1 hfind1 hne hr1 (by simp) ?_
        intro hreqd
        exfalso
        simp [requiredPw, truthyOptStr] at hreqd
      · simp only [hfresh, Option.isNone_some, if_false]
        simp only [Bool.false_eq_true, ite_false]
        exact join_room_inv hND hRC hCR hNB hNE hc hne
  | leaveRoom =>
      rcases hlv : leave_room s c with _ | p
      · simp only [handle_message, hlv]
        exact hInv
      · obtain ⟨s2, ls⟩ := p
        simp only [handle_message, hlv]
        exact leave_room_inv_full hInv hlv
  | chatMessage msg =>
      rw [handle_chat_state]
      exact hInv
  | videoState b =>
      rw [handle_video_state]
      exact hInv
  | audioState b =>
      rw [handle_audio_state]
      exact hInv
  | signal k tid payload =>
      rw [handle_signal_state]
      exact hInv
  | kickUser tid =>
      rw [handle_kick_state]
      exact hInv
  | banUser tid =>
      rcases hc : alistFind c s.clients with _ | info
      · simp only [handle_message, hc]
        exact hInv
      rcases hg : modGate s info with ⟨rid, r⟩ | _ | _
      · obtain ⟨hrm, hrid, hr, hmod⟩ := modGate_granted hg
        rcases ht : findTarget ({ s with
            rooms := alistSet rid { r with banned := setAdd tid r.banned } s.rooms })
            tid rid with _ | wj
        · simp only [handle_message, hc, hg, ht]
          exact inv_set_room_samefields hInv hr rfl
        · obtain ⟨w, j⟩ := wj
          simp only [handle_message, hc, hg, ht]
          exact inv_set_room_samefields hInv hr rfl
      · simp only [handle_message, hc, hg]
        exact hInv
      · simp only [handle_message, hc, hg]
        exact hInv
  | promoteModerator tid =>
      rw [handle_promote_state]
      exact hInv
  | changeName newUsername =>
      rcases hc : alistFind c s.clients with _ | info
      · simp only [handle_message, hc]
        exact hInv
      by_cases hcond : newUsername.trim ≠ "" ∧ truthyOptStr info.room
      · obtain ⟨hnm, htr⟩ := hcond
        rcases hrm : info.room with _ | rid
        · rw [hrm] at htr
          simp [truthyOptStr] at htr
        · simp only [handle_message, hc]
          rw [if_pos ⟨hnm, hrm ▸ htr⟩, hrm]
          exact inv_set_session_room_eq hInv hc hrm.symm
      · simp only [handle_message, hc, hcond, if_false]
        exact hInv
  | moderatorChangeName tid newUsername =>
      rcases hc : alistFind c s.clients with _ | info
      · simp only [handle_message, hc]
        exact hInv
      rcases hg : modGate s info with ⟨rid, r⟩ | _ | _
      · by_cases hnm : newUsername.trim = ""
        · simp only [handle_message, hc, hg, hnm, if_pos rfl]
          exact hInv
        · rcases ht : findTarget s tid rid with _ | wj
          · simp only [handle_message, hc, hg, if_neg hnm, ht]
            exact hInv
          · obtain ⟨w, j⟩ := wj
            obtain ⟨hfw, _, _⟩ := findTarget_spec hND.1 ht
            simp only [handle_message, hc, hg, if_neg hnm, ht]
            exact inv_set_session_room_eq hInv hfw rfl
      · simp only [handle_message, hc, hg]
        exact hInv
      · simp only [handle_message, hc, hg]
        exact hInv

/-- One event step preserves the invariant. -/
theorem step_inv {s : ServerState} {e : Event} (hInv : Inv s) (hok : okEvent s e) :
    Inv (step s e).state := by
  cases e with
  | msg c m => exact handle_message_inv hInv hok
  | disconnect c =>
      simp only [step]
      exact unregister_client_inv hInv

/-- Every reachable state satisfies the invariant. -/
theorem reachable_inv {s : ServerState} (h : Reachable s) : Inv s := by
  induction h with
  | init => exact initial_inv
  | step e _ hok ih => exact step_inv ih hok

/-! No operation of the server ever writes the `moderator` field of an
existing room: in particular the promote handler does not (the C1
finding), so a room created without a moderator stays moderatorless for
its whole lifetime. -/

/-- Existing room entries survive `create_room` untouched. -/
theorem create_room_preserves_entry {s : ServerState} {rid2 : String}
    {pw irc mid : Option String} {rid : String} {r : Room}
    (hr : alistFind rid s.rooms = some r) :
    alistFind rid (create_room s rid2 pw irc mid).rooms = some r := by
  unfold create_room
  split
  · exact hr
  · rename_i hfresh
    have hne : rid ≠ rid2 := by
      intro hcc
      subst hcc
      rw [hr] at hfresh
      simp at hfresh
    simp only
    rw [alistFind_set_ne hne]
    exact hr

/-- Rooms surviving a leave keep their moderator. -/
theorem leave_room_moderator {s : ServerState} {c : Conn} {s2 : ServerState}
    {out : List (Conn × ServerMsg)} (h : leave_room s c = some (s2, out)) :
    ∀ rid r2, alistFind rid s2.rooms = some r2 →
      ∃ r, alistFind rid s.rooms = some r ∧ r2.moderator = r.moderator := by
  intro rid2 r2 hr2
  rcases hc : alistFind c s.clients with _ | info
  · simp [leave_room, hc] at h
  rcases hrm : info.room with _ | rid0
  · simp [leave_room, hc, hrm] at h
    obtain ⟨h1, _⟩ := h
    subst h1
    exact ⟨r2, hr2, rfl⟩
  by_cases hrid : rid0 = ""
  · subst hrid
    simp [leave_room, hc, hrm] at h
    obtain ⟨h1, _⟩ := h
    subst h1
    exact ⟨r2, hr2, rfl⟩
  rcases hr : alistFind rid0 s.rooms with _ | r
  · simp [leave_room, hc, hrm, hrid, hr] at h
    obtain ⟨h1, _⟩ := h
    subst h1
    exact ⟨r2, hr2, rfl⟩
  simp only [leave_room, hc, hrm, if_neg hrid, hr] at h
  by_cases he : (r.users.filter (fun w => w ≠ c)).isEmpty
  · rw [if_pos he, Option.some_inj, Prod.mk.injEq] at h
    obtain ⟨h1, _⟩ := h
    subst h1
    by_cases h3 : rid2 = rid0
    · subst h3
      rw [alistFind_erase_self] at hr2
      cases hr2
    · rw [alistFind_erase_ne h3, alistFind_set_ne h3] at hr2
      exact ⟨r2, hr2, rfl⟩
  · rw [if_neg he, Option.some_inj, Prod.mk.injEq] at h
    obtain ⟨h1, _⟩ := h
    subst h1
    by_cases h3 : rid2 = rid0
    · subst h3
      rw [alistFind_set_self] at hr2
      have hrr : r2 = { r with users := r.users.filter (fun w => w ≠ c) } := by
        injection hr2 with hx
        exact hx.symm
      subst hrr
      exact ⟨r, hr, rfl⟩
    · rw [alistFind_set_ne h3] at hr2
      exact ⟨r2, hr2, rfl⟩

/-- Rooms surviving a disconnect cleanup keep their moderator. -/
theorem unregister_client_moderator {s : ServerState} {c : Conn} :
    ∀ rid r2, alistFind rid (unregister_client s c).1.rooms = some r2 →
      ∃ r, alistFind rid s.rooms = some r ∧ r2.moderator = r.moderator := by
  intro rid2 r2 hr2
  rcases hc : alistFind c s.clients with _ | info
  · simp only [unregister_client, hc] at hr2
    exact ⟨r2, hr2, rfl⟩
  rcases hrm : info.room with _ | rid0
  · simp only [unregister_client, hc, hrm] at hr2
    exact ⟨r2, hr2, rfl⟩
  by_cases hrid : rid0 = ""
  · simp only [unregister_client, hc, hrm, if_pos hrid] at hr2
    exact ⟨r2, hr2, rfl⟩
  rcases hr : alistFind rid0 s.rooms with _ | r
  · simp only [unregister_client, hc, hrm, if_neg hrid, hr] at hr2
    exact ⟨r2, hr2, rfl⟩
  simp only [unregister_client, hc, hrm, if_neg hrid, hr] at hr2
  by_cases he : (r.users.filter (fun w => w ≠ c)).isEmpty
  · rw [if_pos he] at hr2
    dsimp only at hr2
    by_cases h3 : rid2 = rid0
    · subst h3
      rw [alistFind_erase_self] at hr2
      cases hr2
    · rw [alistFind_erase_ne h3, alistFind_set_ne h3] at hr2
      exact ⟨r2, hr2, rfl⟩
  · rw [if_neg he] at hr2
    dsimp only at hr2
    by_cases h3 : rid2 = rid0
    · subst h3
      rw [alistFind_set_self] at hr2
      have hrr : r2 = { r with users := r.users.filter (fun w => w ≠ c) } := by
        injection hr2 with hx
        exact hx.symm
      subst hrr
      exact ⟨r, hr, rfl⟩
    · rw [alistFind_set_ne h3] at hr2
      exact ⟨r2, hr2, rfl⟩

/-- The join commit phase never changes the moderator of a room that
exists both before and after it. -/
theorem joinCommit_moderator {s : ServerState} {c : Conn} {info : Session} {rid2 : String} :
    ∀ rid r2, alistFind rid (joinCommit s c info rid2).1.rooms = some r2 →
      ∃ r, alistFind rid s.rooms = some r ∧ r2.moderator = r.moderator := by
  intro rid3 r3 hr3
  have hlp : ∀ rid r2, alistFind rid (leavePhase s c info).1.rooms = some r2 →
      ∃ r, alistFind rid s.rooms = some r ∧ r2.moderator = r.moderator := by
    intro rid4 r4 hr4
    unfold leavePhase at hr4
    by_cases htr : truthyOptStr info.room
    · rw [if_pos htr] at hr4
      rcases hlv : leave_room s c with _ | p
      · rw [hlv] at hr4
        exact ⟨r4, hr4, rfl⟩
      · obtain ⟨s2, ls⟩ := p
        rw [hlv] at hr4
        exact leave_room_moderator hlv rid4 r4 hr4
    · rw [if_neg htr] at hr4
      exact ⟨r4, hr4, rfl⟩
  simp only [joinCommit] at hr3
  rcases h1 : alistFind c (leavePhase s c info).1.clients with _ | info1 <;> rw [h1] at hr3
  · exact hlp rid3 r3 hr3
  rcases h2 : alistFind rid2 (leavePhase s c info).1.rooms with _ | r1 <;> rw [h2] at hr3
  · exact hlp rid3 r3 hr3
  simp only [commitCore] at hr3
  by_cases h3 : rid3 = rid2
  · subst h3
    rw [alistFind_set_self] at hr3
    have hrr : r3 = { r1 with users := setAdd c r1.users } := by
      injection hr3 with hx
      exact hx.symm
    subst hrr
    obtain ⟨r0, hr0, hm0⟩ := hlp rid3 r1 h2
    exact ⟨r0, hr0, hm0⟩
  · rw [alistFind_set_ne h3] at hr3
    exact hlp rid3 r3 hr3

/-- `join_room` never changes the moderator of a surviving room. -/
theorem join_room_moderator {s : ServerState} {c : Conn} {rid2 : String}
    {pw : Option String} :
    ∀ rid r2, alistFind rid (join_room s c rid2 pw).1.rooms = some r2 →
      ∃ r, alistFind rid s.rooms = some r ∧ r2.moderator = r.moderator := by
  intro rid3 r3 hr3
  rcases hc : alistFind c s.clients with _ | info
  · simp only [join_room, hc] at hr3
    exact ⟨r3, hr3, rfl⟩
  rcases hroom : alistFind rid2 s.rooms with _ | r
  · simp only [join_room, hc, hroom] at hr3
    exact ⟨r3, hr3, rfl⟩
  by_cases hban : info.id ∈ r.banned
  · simp only [join_room, hc, hroom, if_pos hban] at hr3
    exact ⟨r3, hr3, rfl⟩
  by_cases hreq : requiredPw r.password
  · by_cases htp : truthyOptStr pw
    · by_cases hmatch : pw.map hash_password ≠ r.password
      · have hst : (join_room s c rid2 pw).1 = s := by
          simp [join_room, hc, hroom, hban, hreq, htp, hmatch]
        rw [hst] at hr3
        exact ⟨r3, hr3, rfl⟩
      · have hst : join_room s c rid2 pw = joinCommit s c info rid2 := by
          simp [join_room, hc, hroom, hban, hreq, htp, hmatch]
        rw [hst] at hr3
        exact joinCommit_moderator rid3 r3 hr3
    · have hst : (join_room s c rid2 pw).1 = s := by
        simp [join_room, hc, hroom, hban, hreq, htp]
      rw [hst] at hr3
      exact ⟨r3, hr3, rfl⟩
  · have hst : join_room s c rid2 pw = joinCommit s c info rid2 := by
      simp [join_room, hc, hroom, hban, hreq]
    rw [hst] at hr3
    exact joinCommit_moderator rid3 r3 hr3

/-- No handled envelope ever changes the moderator field of a room
that exists before and after it; in particular `promote-moderator`
leaves it untouched. -/
theorem handle_message_moderator {s : ServerState} {c : Conn} {m : ClientMsg}
    {rid : String} {r r3 : Room}
    (hr : alistFind rid s.rooms = some r)
    (hr3 : alistFind rid (handle_message s c m).state.rooms = some r3) :
    r3.moderator = r.moderator := by
  cases m with
  | register cid un =>
      simp only [handle_message, register_client] at hr3
      rw [hr] at hr3
      injection hr3 with hx
      rw [← hx]
  | createRoom rid2 pw irc =>
      rcases hc : alistFind c s.clients with _ | info
      · simp only [handle_message, hc] at hr3
        rw [hr] at hr3
        injection hr3 with hx
        rw [← hx]
      · simp only [handle_message, hc] at hr3
        obtain ⟨r0, hr0, hm0⟩ := join_room_moderator rid r3 hr3
        have hrr : r0 = r :=
          Option.some_inj.mp (hr0.symm.trans (create_room_preserves_entry hr))
        rw [hm0, hrr]
  | joinRoom rid2 pw =>
      simp only [handle_message] at hr3
      rcases hfresh : alistFind rid2 s.rooms with _ | r4
      · rw [hfresh] at hr3
        simp only [Option.isNone_none, if_true] at hr3
        obtain ⟨r0, hr0, hm0⟩ := join_room_moderator rid r3 hr3
        rw [create_room_preserves_entry hr] at hr0
        have : r0 = r := by
          injection hr0 with hx
          exact hx.symm
        rw [hm0, this]
      · rw [hfresh] at hr3
        simp only [Option.isNone_some, Bool.false_eq_true, if_false] at hr3
        obtain ⟨r0, hr0, hm0⟩ := join_room_moderator rid r3 hr3
        rw [hr] at hr0
        have : r0 = r := by
          injection hr0 with hx
          exact hx.symm
        rw [hm0, this]
  | leaveRoom =>
      rcases hlv : leave_room s c with _ | p
      · simp only [handle_message, hlv] at hr3
        rw [hr] at hr3
        injection hr3 with hx
        rw [← hx]
      · obtain ⟨s2, ls⟩ := p
        simp only [handle_message, hlv] at hr3
        obtain ⟨r0, hr0, hm0⟩ := leave_room_moderator hlv rid r3 hr3
        rw [hr] at hr0
        have : r0 = r := by
          injection hr0 with hx
          exact hx.symm
        rw [hm0, this]
  | chatMessage msg =>
      rw [handle_chat_state] at hr3
      rw [hr] at hr3
      injection hr3 with hx
      rw [← hx]
  | videoState b =>
      rw [handle_video_state] at hr3
      rw [hr] at hr3
      injection hr3 with hx
      rw [← hx]
  | audioState b =>
      rw [handle_audio_state] at hr3
      rw [hr] at hr3
      injection hr3 with hx
      rw [← hx]
  | signal k tid payload =>
      rw [handle_signal_state] at hr3
      rw [hr] at hr3
      injection hr3 with hx
      rw [← hx]
  | kickUser tid =>
      rw [handle_kick_state] at hr3
      rw [hr] at hr3
      injection hr3 with hx
      rw [← hx]
  | banUser tid =>
      rcases hc : alistFind c s.clients with _ | info
      · simp only [handle_message, hc] at hr3
        rw [hr] at hr3
        injection hr3 with hx
        rw [← hx]
      rcases hg : modGate s info with ⟨rid2, r4⟩ | _ | _
      · obtain ⟨hrm, hrid, hr4, hmod⟩ := modGate_granted hg
        rcases ht : findTarget ({ s with
            rooms := alistSet rid2 { r4 with banned := setAdd tid r4.banned } s.rooms })
            tid rid2 with _ | wj
        · simp only [handle_message, hc, hg, ht] at hr3
          by_cases h3 : rid = rid2
          · subst h3
            rw [alistFind_set_self] at hr3
            have : r3 = { r4 with banned := setAdd tid r4.banned } := by
              injection hr3 with hx
              exact hx.symm
            subst this
            have : r4 = r := Option.some_inj.mp (hr4.symm.trans hr)
            rw [this]
          · rw [alistFind_set_ne h3] at hr3
            rw [hr] at hr3
            injection hr3 with hx
            rw [← hx]
        · obtain ⟨w, j⟩ := wj
          simp only [handle_message, hc, hg, ht] at hr3
          by_cases h3 : rid = rid2
          · subst h3
            rw [alistFind_set_self] at hr3
            have : r3 = { r4 with banned := setAdd tid r4.banned } := by
              injection hr3 with hx
              exact hx.symm
            subst this
            have : r4 = r := Option.some_inj.mp (hr4.symm.trans hr)
            rw [this]
          · rw [alistFind_set_ne h3] at hr3
            rw [hr] at hr3
            injection hr3 with hx
            rw [← hx]
      · simp only [handle_message, hc, hg] at hr3
        rw [hr] at hr3
        injection hr3 with hx
        rw [← hx]
      · simp only [handle_message, hc, hg] at hr3
        rw [hr] at hr3
        injection hr3 with hx
        rw [← hx]
  | promoteModerator tid =>
      rw [handle_promote_state] at hr3
      rw [hr] at hr3
      injection hr3 with hx
      rw [← hx]
  | changeName newUsername =>
      rcases hc : alistFind c s.clients with _ | info
      · simp only [handle_message, hc] at hr3
        rw [hr] at hr3
        injection hr3 with hx
        rw [← hx]
      by_cases hcond : newUsername.trim ≠ "" ∧ truthyOptStr info.room
      · obtain ⟨hnm, htr⟩ := hcond
        rcases hrm : info.room with _ | rid2
        · rw [hrm] at htr
          simp [truthyOptStr] at htr
        · simp only [handle_message, hc] at hr3
          rw [if_pos ⟨hnm, hrm ▸ htr⟩, hrm] at hr3
          dsimp only at hr3
          rw [hr] at hr3
          injection hr3 with hx
          rw [← hx]
      · simp only [handle_message, hc, hcond, if_false] at hr3
        rw [hr] at hr3
        injection hr3 with hx
        rw [← hx]
  | moderatorChangeName tid newUsername =>
      rcases hc : alistFind c s.clients with _ | info
      · simp only [handle_message, hc] at hr3
        rw [hr] at hr3
        injection hr3 with hx
        rw [← hx]
      rcases hg : modGate s info with ⟨rid2, r4⟩ | _ | _
      · by_cases hnm : newUsername.trim = ""
        · simp only [handle_message, hc, hg, hnm, eq_self_iff_true, if_true] at hr3
          rw [hr] at hr3
          injection hr3 with hx
          rw [← hx]
        · rcases ht : findTarget s tid rid2 with _ | wj
          · simp only [handle_message, hc, hg, if_neg hnm, ht] at hr3
            rw [hr] at hr3
            injection hr3 with hx
            rw [← hx]
          · obtain ⟨w, j⟩ := wj
            simp only [handle_message, hc, hg, if_neg hnm, ht] at hr3
            rw [hr] at hr3
            injection hr3 with hx
            rw [← hx]
      · simp only [handle_message, hc, hg] at hr3
        rw [hr] at hr3
        injection hr3 with hx
        rw [← hx]
      · simp only [handle_message, hc, hg] at hr3
        rw [hr] at hr3
        injection hr3 with hx
        rw [← hx]

/-- No event step changes the moderator of a room that survives it. -/
theorem step_moderator {s : ServerState} {e : Event} {rid : String} {r r3 : Room}
    (hr : alistFind rid s.rooms = some r)
    (hr3 : alistFind rid (step s e).state.rooms = some r3) :
    r3.moderator = r.moderator := by
  cases e with
  | msg c m => exact handle_message_moderator hr hr3
  | disconnect c =>
      simp only [step] at hr3
      obtain ⟨r0, hr0, hm0⟩ := unregister_client_moderator rid r3 hr3
      rw [hr] at hr0
      have : r0 = r := by
        injection hr0 with hx
        exact hx.symm
      rw [hm0, this]

/-- Rooms surviving a leave keep their banned set. -/
theorem leave_room_banned_eq {s : ServerState} {c : Conn} {s2 : ServerState}
    {out : List (Conn × ServerMsg)} (h : leave_room s c = some (s2, out)) :
    ∀ rid r2, alistFind rid s2.rooms = some r2 →
      ∃ r, alistFind rid s.rooms = some r ∧ r2.banned = r.banned := by
  intro rid2 r2 hr2
  rcases hc : alistFind c s.clients with _ | info
  · simp [leave_room, hc] at h
  rcases hrm : info.room with _ | rid0
  · simp [leave_room, hc, hrm] at h
    obtain ⟨h1, _⟩ := h
    subst h1
    exact ⟨r2, hr2, rfl⟩
  by_cases hrid : rid0 = ""
  · subst hrid
    simp [leave_room, hc, hrm] at h
    obtain ⟨h1, _⟩ := h
    subst h1
    exact ⟨r2, hr2, rfl⟩
  rcases hr : alistFind rid0 s.rooms with _ | r
  · simp [leave_room, hc, hrm, hrid, hr] at h
    obtain ⟨h1, _⟩ := h
    subst h1
    exact ⟨r2, hr2, rfl⟩
  simp only [leave_room, hc, hrm, if_neg hrid, hr] at h
  by_cases he : (r.users.filter (fun w => w ≠ c)).isEmpty
  · rw [if_pos he, Option.some_inj, Prod.mk.injEq] at h
    obtain ⟨h1, _⟩ := h
    subst h1
    by_cases h3 : rid2 = rid0
    · subst h3
      rw [alistFind_erase_self] at hr2
      cases hr2
    · rw [alistFind_erase_ne h3, alistFind_set_ne h3] at hr2
      exact ⟨r2, hr2, rfl⟩
  · rw [if_neg he, Option.some_inj, Prod.mk.injEq] at h
    obtain ⟨h1, _⟩ := h
    subst h1
    by_cases h3 : rid2 = rid0
    · subst h3
      rw [alistFind_set_self] at hr2
      have hrr : r2 = { r with users := r.users.filter (fun w => w ≠ c) } := by
        injection hr2 with h9
        exact h9.symm
      subst hrr
      exact ⟨r, hr, rfl⟩
    · rw [alistFind_set_ne h3] at hr2
      exact ⟨r2, hr2, rfl⟩

/-- Rooms surviving a disconnect cleanup keep their banned set. -/
theorem unregister_client_banned_eq {s : ServerState} {c : Conn} :
    ∀ rid r2, alistFind rid (unregister_client s c).1.rooms = some r2 →
      ∃ r, alistFind rid s.rooms = some r ∧ r2.banned = r.banned := by
  intro rid2 r2 hr2
  rcases hc : alistFind c s.clients with _ | info
  · simp only [unregister_client, hc] at hr2
    exact ⟨r2, hr2, rfl⟩
  rcases hrm : info.room with _ | rid0
  · simp only [unregister_client, hc, hrm] at hr2
    exact ⟨r2, hr2, rfl⟩
  by_cases hrid : rid0 = ""
  · simp only [unregister_client, hc, hrm, if_pos hrid] at hr2
    exact ⟨r2, hr2, rfl⟩
  rcases hr : alistFind rid0 s.rooms with _ | r
  · simp only [unregister_client, hc, hrm, if_neg hrid, hr] at hr2
    exact ⟨r2, hr2, rfl⟩
  simp only [unregister_client, hc, hrm, if_neg hrid, hr] at hr2
  by_cases he : (r.users.filter (fun w => w ≠ c)).isEmpty
  · rw [if_pos he] at hr2
    dsimp only at hr2
    by_cases h3 : rid2 = rid0
    · subst h3
      rw [alistFind_erase_self] at hr2
      cases hr2
    · rw [alistFind_erase_ne h3, alistFind_set_ne h3] at hr2
      exact ⟨r2, hr2, rfl⟩
  · rw [if_neg he] at hr2
    dsimp only at hr2
    by_cases h3 : rid2 = rid0
    · subst h3
      rw [alistFind_set_self] at hr2
      have hrr : r2 = { r with users := r.users.filter (fun w => w ≠ c) } := by
        injection hr2 with h9
        exact h9.symm
      subst hrr
      exact ⟨r, hr, rfl⟩
    · rw [alistFind_set_ne h3] at hr2
      exact ⟨r2, hr2, rfl⟩

/-- The join commit phase never changes the banned set of a room that
exists both before and after it. -/
theorem joinCommit_banned_eq {s : ServerState} {c : Conn} {info : Session} {rid2 : String} :
    ∀ rid r2, alistFind rid (joinCommit s c info rid2).1.rooms = some r2 →
      ∃ r, alistFind rid s.rooms = some r ∧ r2.banned = r.banned := by
  intro rid3 r3 hr3
  have hlp : ∀ rid r2, alistFind rid (leavePhase s c info).1.rooms = some r2 →
      ∃ r, alistFind rid s.rooms = some r ∧ r2.banned = r.banned := by
    intro rid4 r4 hr4
    unfold leavePhase at hr4
    by_cases htr : truthyOptStr info.room
    · rw [if_pos htr] at hr4
      rcases hlv : leave_room s c with _ | p
      · rw [hlv] at hr4
        exact ⟨r4, hr4, rfl⟩
      · obtain ⟨s2, ls⟩ := p
        rw [hlv] at hr4
        exact leave_room_banned_eq hlv rid4 r4 hr4
    · rw [if_neg htr] at hr4
      exact ⟨r4, hr4, rfl⟩
  simp only [joinCommit] at hr3
  rcases h1 : alistFind c (leavePhase s c info).1.clients with _ | info1 <;> rw [h1] at hr3
  · exact hlp rid3 r3 hr3
  rcases h2 : alistFind rid2 (leavePhase s c info).1.rooms with _ | r1 <;> rw [h2] at hr3
  · exact hlp rid3 r3 hr3
  simp only [commitCore] at hr3
  by_cases h3 : rid3 = rid2
  · subst h3
    rw [alistFind_set_self] at hr3
    have hrr : r3 = { r1 with users := setAdd c r1.users } := by
      injection hr3 with h9
      exact h9.symm
    subst hrr
    obtain ⟨r0, hr0, hb0⟩ := hlp rid3 r1 h2
    exact ⟨r0, hr0, hb0⟩
  · rw [alistFind_set_ne h3] at hr3
    exact hlp rid3 r3 hr3

/-- `join_room` never changes the banned set of a surviving room. -/
theorem join_room_banned_eq {s : ServerState} {c : Conn} {rid2 : String}
    {pw : Option String} :
    ∀ rid r2, alistFind rid (join_room s c rid2 pw).1.rooms = some r2 →
      ∃ r, alistFind rid s.rooms = some r ∧ r2.banned = r.banned := by
  intro rid3 r3 hr3
  rcases hc : alistFind c s.clients with _ | info
  · simp only [join_room, hc] at hr3
    exact ⟨r3, hr3, rfl⟩
  rcases hroom : alistFind rid2 s.rooms with _ | r
  · simp only [join_room, hc, hroom] at hr3
    exact ⟨r3, hr3, rfl⟩
  by_cases hban : info.id ∈ r.banned
  · simp only [join_room, hc, hroom, if_pos hban] at hr3
    exact ⟨r3, hr3, rfl⟩
  by_cases hreq : requiredPw r.password
  · by_cases htp : truthyOptStr pw
    · by_cases hmatch : pw.map hash_password ≠ r.password
      · have hst : (join_room s c rid2 pw).1 = s := by
          simp [join_room, hc, hroom, hban, hreq, htp, hmatch]
        rw [hst] at hr3
        exact ⟨r3, hr3, rfl⟩
      · have hst : join_room s c rid2 pw = joinCommit s c info rid2 := by
          simp [join_room, hc, hroom, hban, hreq, htp, hmatch]
        rw [hst] at hr3
        exact joinCommit_banned_eq rid3 r3 hr3
    · have hst : (join_room s c rid2 pw).1 = s := by
        simp [join_room, hc, hroom, hban, hreq, htp]
      rw [hst] at hr3
      exact ⟨r3, hr3, rfl⟩
  · have hst : join_room s c rid2 pw = joinCommit s c info rid2 := by
      simp [join_room, hc, hroom, hban, hreq]
    rw [hst] at hr3
    exact joinCommit_banned_eq rid3 r3 hr3

/-- No handled envelope ever removes an entry from the banned set of a
room that exists before and after it: only `ban-user` touches the set,
and it only grows it. -/
theorem handle_message_banned {s : ServerState} {c : Conn} {m : ClientMsg}
    {rid : String} {r r3 : Room}
    (hr : alistFind rid s.rooms = some r)
    (hr3 : alistFind rid (handle_message s c m).state.rooms = some r3) :
    ∀ x, x ∈ r.banned → x ∈ r3.banned := by
  intro x hx
  cases m with
  | register cid un =>
      simp only [handle_message, register_client] at hr3
      rw [hr] at hr3
      injection hr3 with h9
      rw [← h9]
      exact hx
  | createRoom rid2 pw irc =>
      rcases hc : alistFind c s.clients with _ | info
      · simp only [handle_message, hc] at hr3
        rw [hr] at hr3
        injection hr3 with h9
        rw [← h9]
        exact hx
      · simp only [handle_message, hc] at hr3
        obtain ⟨r0, hr0, hb0⟩ := join_room_banned_eq rid r3 hr3
        have hrr : r0 = r :=
          Option.some_inj.mp (hr0.symm.trans (create_room_preserves_entry hr))
        rw [hb0, hrr]
        exact hx
  | joinRoom rid2 pw =>
      simp only [handle_message] at hr3
      rcases hfresh : alistFind rid2 s.rooms with _ | r4
      · rw [hfresh] at hr3
        simp only [Option.isNone_none, if_true] at hr3
        obtain ⟨r0, hr0, hb0⟩ := join_room_banned_eq rid r3 hr3
        rw [create_room_preserves_entry hr] at hr0
        have hrr : r0 = r := by
          injection hr0 with h9
          exact h9.symm
        rw [hb0, hrr]
        exact hx
      · rw [hfresh] at hr3
        simp only [Option.isNone_some, Bool.false_eq_true, if_false] at hr3
        obtain ⟨r0, hr0, hb0⟩ := join_room_banned_eq rid r3 hr3
        rw [hr] at hr0
        have hrr : r0 = r := by
          injection hr0 with h9
          exact h9.symm
        rw [hb0, hrr]
        exact hx
  | leaveRoom =>
      rcases hlv : leave_room s c with _ | p
      · simp only [handle_message, hlv] at hr3
        rw [hr] at hr3
        injection hr3 with h9
        rw [← h9]
        exact hx
      · obtain ⟨s2, ls⟩ := p
        simp only [handle_message, hlv] at hr3
        obtain ⟨r0, hr0, hb0⟩ := leave_room_banned_eq hlv rid r3 hr3
        rw [hr] at hr0
        have hrr : r0 = r := by
          injection hr0 with h9
          exact h9.symm
        rw [hb0, hrr]
        exact hx
  | chatMessage msg =>
      rw [handle_chat_state] at hr3
      rw [hr] at hr3
      injection hr3 with h9
      rw [← h9]
      exact hx
  | videoState b =>
      rw [handle_video_state] at hr3
      rw [hr] at hr3
      injection hr3 with h9
      rw [← h9]
      exact hx
  | audioState b =>
      rw [handle_audio_state] at hr3
      rw [hr] at hr3
      injection hr3 with h9
      rw [← h9]
      exact hx
  | signal k tid payload =>
      rw [handle_signal_state] at hr3
      rw [hr] at hr3
      injection hr3 with h9
      rw [← h9]
      exact hx
  | kickUser tid =>
      rw [handle_kick_state] at hr3
      rw [hr] at hr3
      injection hr3 with h9
      rw [← h9]
      exact hx
  | banUser tid =>
      rcases hc : alistFind c s.clients with _ | info
      · simp only [handle_message, hc] at hr3
        rw [hr] at hr3
        injection hr3 with h9
        rw [← h9]
        exact hx
      rcases hg : modGate s info with ⟨rid2, r4⟩ | _ | _
      · obtain ⟨hrm, hrid, hr4, hmod⟩ := modGate_granted hg
        rcases ht : findTarget ({ s with
            rooms := alistSet rid2 { r4 with banned := setAdd tid r4.banned } s.rooms })
            tid rid2 with _ | wj
        · simp only [handle_message, hc, hg, ht] at hr3
          by_cases h3 : rid = rid2
          · subst h3
            rw [alistFind_set_self] at hr3
            have hr3e : r3 = { r4 with banned := setAdd tid r4.banned } := by
              injection hr3 with h9
              exact h9.symm
            subst hr3e
            have hrr : r4 = r := Option.some_inj.mp (hr4.symm.trans hr)
            rw [hrr]
            exact mem_setAdd.mpr (Or.inl hx)
          · rw [alistFind_set_ne h3] at hr3
            rw [hr] at hr3
            injection hr3 with h9
            rw [← h9]
            exact hx
        · obtain ⟨w, j⟩ := wj
          simp only [handle_message, hc, hg, ht] at hr3
          by_cases h3 : rid = rid2
          · subst h3
            rw [alistFind_set_self] at hr3
            have hr3e : r3 = { r4 with banned := setAdd tid r4.banned } := by
              injection hr3 with h9
              exact h9.symm
            subst hr3e
            have hrr : r4 = r := Option.some_inj.mp (hr4.symm.trans hr)
            rw [hrr]
            exact mem_setAdd.mpr (Or.inl hx)
          · rw [alistFind_set_ne h3] at hr3
            rw [hr] at hr3
            injection hr3 with h9
            rw [← h9]
            exact hx
      · simp only [handle_message, hc, hg] at hr3
        rw [hr] at hr3
        injection hr3 with h9
        rw [← h9]
        exact hx
      · simp only [handle_message, hc, hg] at hr3
        rw [hr] at hr3
        injection hr3 with h9
        rw [← h9]
        exact hx
  | promoteModerator tid =>
      rw [handle_promote_state] at hr3
      rw [hr] at hr3
      injection hr3 with h9
      rw [← h9]
      exact hx
  | changeName newUsername =>
      rcases hc : alistFind c s.clients with _ | info
      · simp only [handle_message, hc] at hr3
        rw [hr] at hr3
        injection hr3 with h9
        rw [← h9]
        exact hx
      by_cases hcond : newUsername.trim ≠ "" ∧ truthyOptStr info.room
      · obtain ⟨hnm, htr⟩ := hcond
        rcases hrm : info.room with _ | rid2
        · rw [hrm] at htr
          simp [truthyOptStr] at htr
        · simp only [handle_message, hc] at hr3
          rw [if_pos ⟨hnm, hrm ▸ htr⟩, hrm] at hr3
          dsimp only at hr3
          rw [hr] at hr3
          injection hr3 with h9
          rw [← h9]
          exact hx
      · simp only [handle_message, hc, hcond, if_false] at hr3
        rw [hr] at hr3
        injection hr3 with h9
        rw [← h9]
        exact hx
  | moderatorChangeName tid newUsername =>
      rcases hc : alistFind c s.clients with _ | info
      · simp only [handle_message, hc] at hr3
        rw [hr] at hr3
        injection hr3 with h9
        rw [← h9]
        exact hx
      rcases hg : modGate s info with ⟨rid2, r4⟩ | _ | _
      · by_cases hnm : newUsername.trim = ""
        · simp only [handle_message, hc, hg, hnm, eq_self_iff_true, if_true] at hr3
          rw [hr] at hr3
          injection hr3 with h9
          rw [← h9]
          exact hx
        · rcases ht : findTarget s tid rid2 with _ | wj
          · simp only [handle_message, hc, hg, if_neg hnm, ht] at hr3
            rw [hr] at hr3
            injection hr3 with h9
            rw [← h9]
            exact hx
          · obtain ⟨w, j⟩ := wj
            simp only [handle_message, hc, hg, if_neg hnm, ht] at hr3
            rw [hr] at hr3
            injection hr3 with h9
            rw [← h9]
            exact hx
      · simp only [handle_message, hc, hg] at hr3
        rw [hr] at hr3
        injection hr3 with h9
        rw [← h9]
        exact hx
      · simp only [handle_message, hc, hg] at hr3
        rw [hr] at hr3
        injection hr3 with h9
        rw [← h9]
        exact hx

/-- No event step removes an entry from the banned set of a room that
survives it. -/
theorem step_banned {s : ServerState} {e : Event} {rid : String} {r r3 : Room}
    (hr : alistFind rid s.rooms = some r)
    (hr3 : alistFind rid (step s e).state.rooms = some r3) :
    ∀ x, x ∈ r.banned → x ∈ r3.banned := by
  intro x hx
  cases e with
  | msg c m => exact handle_message_banned hr hr3 x hx
  | disconnect c =>
      simp only [step] at hr3
      obtain ⟨r0, hr0, hb0⟩ := unregister_client_banned_eq rid r3 hr3
      rw [hr] at hr0
      have hrr : r0 = r := by
        injection hr0 with h9
        exact h9.symm
      rw [hb0, hrr]
      exact hx

/-- A recorded ban persists across every event sequence the room
survives. -/
theorem ban_persists_while_room_lives {rid tid : String} :
    ∀ (es : List Event) (s : ServerState), BanRecorded s rid tid →
      roomLivesAlong s rid es → BanRecorded (runEvents s es) rid tid := by
  intro es
  induction es with
  | nil => exact fun s h _ => h
  | cons e es ih =>
      intro s h hl
      simp only [roomLivesAlong, Bool.and_eq_true] at hl
      obtain ⟨hl1, hl2⟩ := hl
      obtain ⟨r, hr, hmem⟩ := h
      rcases hfind : alistFind rid (step s e).state.rooms with _ | r3
      · rw [hfind] at hl1
        simp at hl1
      · show BanRecorded (runEvents (step s e).state es) rid tid
        exact ih (step s e).state ⟨r3, hfind, step_banned hr hfind tid hmem⟩ hl2

/-! Concrete fixture states used by witnesses and counterexamples. -/

/-- Room `r` with members: connection 0 (clientId `a`, the moderator)
and connection 1 (clientId `b`). -/
def stateAB : ServerState :=
  ⟨[(0, ⟨"a", some "r", "alice"⟩), (1, ⟨"b", some "r", "bob"⟩)],
   [("r", ⟨[0, 1], none, none, some "a", []⟩)]⟩

/-! C1.  The spec says `promote(targetClientId)` sets the room's
`moderatorClientId` to the target.  The handler (source lines 574-607)
sends the `you-are-moderator` notice, broadcasts `moderator-promoted`,
and logs "promoted to moderator" - but never assigns
`rooms[room]['moderator']`, so the promotion has no effect on state. -/

/-- C1: promoting member `b` in a room moderated by `a` emits the
promotion events announced by the spec, yet leaves the state - in
particular the room's moderator field - completely unchanged.  The
code contradicts its own events and log line here. -/
theorem promote_sends_events_but_keeps_moderator :
    (handle_message stateAB 0 (.promoteModerator "b")).sends =
      [(1, ServerMsg.youAreModerator),
       (0, ServerMsg.moderatorPromoted "b" "bob"),
       (1, ServerMsg.moderatorPromoted "b" "bob")] ∧
    (handle_message stateAB 0 (.promoteModerator "b")).state = stateAB ∧
    alistFind "r" ((handle_message stateAB 0 (.promoteModerator "b")).state).rooms =
      some ⟨[0, 1], none, none, some "a", []⟩ := by
  refine ⟨?_, rfl, ?_⟩ <;> rfl

/-! C7.  `create_room` (source lines 225-257) does all its work inside
`if room_id not in rooms:`, so a second create for an existing id
changes nothing at all. -/

/-- C7: creating a room whose id is already present is a complete
no-op, whatever arguments the call carries: the whole server state -
hence the room's password hash, moderator, chat binding, banned set
and membership - is identical before and after. -/
theorem create_room_idempotent_on_existing {s : ServerState} {rid : String}
    {pw irc mid : Option String} (h : (alistFind rid s.rooms).isSome) :
    create_room s rid pw irc mid = s ∧
    ∀ r, alistFind rid s.rooms = some r →
      alistFind rid (create_room s rid pw irc mid).rooms = some r := by
  refine ⟨create_room_existing h, fun r hr => ?_⟩
  rw [create_room_existing h]
  exact hr

theorem create_room_idempotent_on_existing_witness :
    create_room stateAB "r" (some "newpw") (some "#chan") (some "z") = stateAB ∧
    alistFind "r" (create_room stateAB "r" (some "newpw") (some "#chan")
      (some "z")).rooms = some ⟨[0, 1], none, none, some "a", []⟩ :=
  ⟨(create_room_idempotent_on_existing (by decide)).1,
   (create_room_idempotent_on_existing (by decide)).2
     ⟨[0, 1], none, none, some "a", []⟩ (by decide)⟩

/-! C8.  Relay of offer/answer/ice-candidate envelopes (source lines
385-391 and 483-496). -/

/-- C8: with a registered sender, a signaling envelope is forwarded to
the connection resolved for `targetId` - same message kind, the
sender's clientId as `senderId`, the payload passed through verbatim,
no state change; when no session has that clientId the envelope is
dropped with no reply to anyone and no state change. -/
theorem relay_forwards_verbatim_or_drops {s : ServerState} {c : Conn} {info : Session}
    {k : SigKind} {tid payload : String}
    (hreg : alistFind c s.clients = some info) :
    (∀ w, findByClientId s tid = some w →
      handle_message s c (.signal k tid payload) =
        ⟨s, [(w, ServerMsg.signal k info.id payload)], []⟩) ∧
    (findByClientId s tid = none →
      handle_message s c (.signal k tid payload) = ⟨s, [], []⟩) ∧
    (findByClientId s tid = none ↔ ∀ p ∈ s.clients, p.2.id ≠ tid) := by
  refine ⟨?_, ?_, ?_⟩
  · intro w hw
    simp [handle_message, hreg, hw]
  · intro hw
    simp [handle_message, hreg, hw]
  · unfold findByClientId
    rcases hf : s.clients.find? (fun p => decide (p.2.id = tid)) with _ | p <;> rw [hf]
    · constructor
      · intro _ p hp hcc
        have hnone := List.find?_eq_none.mp hf p hp
        simp [hcc] at hnone
      · intro _
        rfl
    · constructor
      · intro h
        cases h
      · intro hall
        exfalso
        have hmem := List.mem_of_find?_eq_some hf
        have hpred := List.find?_some hf
        simp only [decide_eq_true_eq] at hpred
        exact hall p hmem hpred

theorem relay_forwards_verbatim_or_drops_witness :
    handle_message stateAB 1 (.signal .offer "a" "sdp-data") =
      ⟨stateAB, [(0, ServerMsg.signal .offer "b" "sdp-data")], []⟩ ∧
    handle_message stateAB 1 (.signal .offer "nobody" "x") = ⟨stateAB, [], []⟩ :=
  ⟨(@relay_forwards_verbatim_or_drops stateAB 1 ⟨"b", some "r", "bob"⟩ .offer "a"
      "sdp-data" (by decide)).1 0 (by decide),
   (@relay_forwards_verbatim_or_drops stateAB 1 ⟨"b", some "r", "bob"⟩ .offer "nobody"
      "x" (by decide)).2.1 (by decide)⟩

/-! C3.  The registry/directory correspondence.  It holds along every
disciplined trace, but the register handler (source lines 181-188)
overwrites the session of an already-registered connection with
`room = None` while the room's member set still holds the connection,
so a re-register from inside a room breaks it. -/

/-- Register, join `r`, register again: the ghost trace for C3. -/
def c3CexState : ServerState :=
  runEvents initialState
    [.msg 0 (.register "a" none), .msg 0 (.joinRoom "r" none),
     .msg 0 (.register "a" none)]

/-- C3 counterexample: after a re-register from inside room `r`, the
room still lists connection 0 as a member but the session's room field
is cleared, so the member set no longer equals the set of sessions
pointing at the room. -/
theorem reregister_breaks_member_correspondence :
    alistFind "r" c3CexState.rooms = some ⟨[0], none, none, none, []⟩ ∧
    alistFind 0 c3CexState.clients = some ⟨"a", none, "User_a"⟩ ∧
    ¬ RoomsToClients c3CexState := by
  refine ⟨by decide, by decide, ?_⟩
  intro h
  obtain ⟨i, hfi, hirm⟩ := h "r" ⟨[0], none, none, none, []⟩ 0 (by decide) (by decide)
  have hi : i = ⟨"a", none, "User_a"⟩ := by
    have h0 : alistFind 0 c3CexState.clients = some ⟨"a", none, "User_a"⟩ := by decide
    exact Option.some_inj.mp (hfi.symm.trans h0)
  rw [hi] at hirm
  cases hirm

/-- C3 (amended): in every state reachable under the event discipline
of `okEvent` - register only from connections not currently in a room,
join-room only from registered connections, and no empty-string room
ids - every room's member set equals the set of registered sessions
whose room field names that room, and every disciplined event
preserves this. -/
theorem member_correspondence_of_reachable {s : ServerState} (h : Reachable s) :
    ∀ rid r c, alistFind rid s.rooms = some r →
      (c ∈ r.users ↔ ∃ i, alistFind c s.clients = some i ∧ i.room = some rid) := by
  obtain ⟨hND, hRC, hCR, hNE, hNB⟩ := reachable_inv h
  intro rid r c hfr
  constructor
  · exact fun hmem => hRC rid r c hfr hmem
  · rintro ⟨i, hfi, hirm⟩
    obtain ⟨r2, hr2, hm2⟩ := hCR c i rid hfi hirm
    have hrr : r2 = r := Option.some_inj.mp (hr2.symm.trans hfr)
    subst hrr
    exact hm2

/-- A two-event disciplined trace: register then join. -/
def twoStepState : ServerState :=
  (step (step initialState (.msg 0 (.register "a" none))).state
    (.msg 0 (.joinRoom "r" none))).state

theorem twoStep_reachable : Reachable twoStepState := by
  refine Reachable.step _ (Reachable.step _ Reachable.init ?_) ?_
  · intro i hx
    simp [initialState, alistFind] at hx
  · refine ⟨by decide, by decide⟩

theorem member_correspondence_of_reachable_witness :
    (0 : Conn) ∈ (Room.users ⟨[0], none, none, none, []⟩) ↔
      ∃ i, alistFind 0 twoStepState.clients = some i ∧ i.room = some "r" :=
  member_correspondence_of_reachable twoStep_reachable "r" ⟨[0], none, none, none, []⟩ 0
    (by decide)

/-! C4.  No empty room is ever retained - along disciplined traces.
An unregistered connection's lazy join (the C10 behaviour) creates a
room and then aborts before populating it, leaving a zero-member room
in the directory. -/

/-- C4 counterexample: one join-room envelope from a never-registered
connection leaves a retained zero-member room. -/
theorem unregistered_join_retains_empty_room :
    alistFind "r" (handle_message initialState 0 (.joinRoom "r" none)).state.rooms =
      some ⟨[], none, none, none, []⟩ ∧
    ¬ NoEmptyRooms (handle_message initialState 0 (.joinRoom "r" none)).state := by
  refine ⟨by decide, fun h => ?_⟩
  exact h "r" ⟨[], none, none, none, []⟩ (by decide) rfl

/-- C4 (amended): in every state reachable under the event discipline
of `okEvent` - in particular, join-room envelopes only from registered
connections - no room in the directory has zero members: a room whose
membership empties is deleted in the same step, and no disciplined
operation sequence retains an empty room. -/
theorem no_empty_rooms_of_reachable {s : ServerState} (h : Reachable s) :
    NoEmptyRooms s :=
  (reachable_inv h).2.2.2.1

theorem no_empty_rooms_of_reachable_witness : NoEmptyRooms twoStepState :=
  no_empty_rooms_of_reachable twoStep_reachable

/-- Rooms a leaving session does not occupy are left exactly as they
were. -/
theorem leave_room_find_other {s : ServerState} {c : Conn} {s2 : ServerState}
    {out : List (Conn × ServerMsg)} {rid : String}
    (h : leave_room s c = some (s2, out))
    (hother : ∀ info, alistFind c s.clients = some info → info.room ≠ some rid) :
    alistFind rid s2.rooms = alistFind rid s.rooms := by
  rcases hc : alistFind c s.clients with _ | info
  · simp [leave_room, hc] at h
  rcases hrm : info.room with _ | rid0
  · simp [leave_room, hc, hrm] at h
    obtain ⟨h1, _⟩ := h
    subst h1
    rfl
  have hne : rid0 ≠ rid := by
    intro hcc
    subst hcc
    exact hother info hc hrm
  by_cases hrid : rid0 = ""
  · subst hrid
    simp [leave_room, hc, hrm] at h
    obtain ⟨h1, _⟩ := h
    subst h1
    rfl
  rcases hr : alistFind rid0 s.rooms with _ | r
  · simp [leave_room, hc, hrm, hrid, hr] at h
    obtain ⟨h1, _⟩ := h
    subst h1
    rfl
  simp only [leave_room, hc, hrm, if_neg hrid, hr] at h
  by_cases he : (r.users.filter (fun w => w ≠ c)).isEmpty
  · rw [if_pos he, Option.some_inj, Prod.mk.injEq] at h
    obtain ⟨h1, _⟩ := h
    subst h1
    have hrne : rid ≠ rid0 := fun hcc => hne hcc.symm
    dsimp only
    rw [alistFind_erase_ne hrne, alistFind_set_ne hrne]
  · rw [if_neg he, Option.some_inj, Prod.mk.injEq] at h
    obtain ⟨h1, _⟩ := h
    subst h1
    have hrne : rid ≠ rid0 := fun hcc => hne hcc.symm
    dsimp only
    rw [alistFind_set_ne hrne]

/-! C9.  The router lazily creates a missing room on join (source
lines 420-429) with default arguments: no password, no chat channel
and - crucially - `moderator = None`.  The joiner is therefore never
the moderator, no operation ever assigns a moderator later (the
promote handler does not write the field - the C1 finding - and
`create_room` on an existing id is a no-op), so every moderator-only
action in such a room is rejected for every client, for the room's
whole lifetime. -/

/-- After a completed leave the leaving session still exists. -/
theorem leave_room_clients_self {s : ServerState} {c : Conn} {s2 : ServerState}
    {out : List (Conn × ServerMsg)} (h : leave_room s c = some (s2, out)) :
    ∃ i2, alistFind c s2.clients = some i2 := by
  rcases hc : alistFind c s.clients with _ | info
  · simp [leave_room, hc] at h
  rcases hrm : info.room with _ | rid0
  · simp [leave_room, hc, hrm] at h
    obtain ⟨h1, _⟩ := h
    subst h1
    exact ⟨info, hc⟩
  by_cases hrid : rid0 = ""
  · subst hrid
    simp [leave_room, hc, hrm] at h
    obtain ⟨h1, _⟩ := h
    subst h1
    exact ⟨info, hc⟩
  rcases hr : alistFind rid0 s.rooms with _ | r
  · simp [leave_room, hc, hrm, hrid, hr] at h
    obtain ⟨h1, _⟩ := h
    subst h1
    exact ⟨info, hc⟩
  simp only [leave_room, hc, hrm, if_neg hrid, hr] at h
  by_cases he : (r.users.filter (fun w => w ≠ c)).isEmpty
  · rw [if_pos he, Option.some_inj, Prod.mk.injEq] at h
    obtain ⟨h1, _⟩ := h
    subst h1
    exact ⟨_, alistFind_set_self c _ _⟩
  · rw [if_neg he, Option.some_inj, Prod.mk.injEq] at h
    obtain ⟨h1, _⟩ := h
    subst h1
    exact ⟨_, alistFind_set_self c _ _⟩

/-- The commit phase applied to a completely fresh room: the sole
member is the joiner, and the reply carries an empty roster, no
password, no chat binding and no moderator. -/
theorem commitCore_fresh (s1 : ServerState) (c : Conn) (rid : String) (i1 : Session)
    (L : List (Conn × ServerMsg)) :
    commitCore s1 c rid i1 ⟨[], none, none, none, []⟩ L =
      ({ clients := alistSet c { i1 with room := some rid } s1.clients,
         rooms := alistSet rid ⟨[c], none, none, none, []⟩ s1.rooms },
       L ++ [(c, ServerMsg.roomJoined rid [] false none false none)], .joined) := by
  have hset : setAdd c ([] : List Conn) = [c] := by
    simp [setAdd]
  simp only [commitCore, hset]
  refine Prod.mk.injEq .. ▸ ⟨rfl, ?_⟩
  simp [broadcast_to_room, alistFind_set_self, List.filter]

/-- C9: joining a roomId absent from the directory creates the room
with empty configuration and joins the sender: the joiner gets
`room-joined` with an empty roster, `isModerator = false` and no
moderatorId - not a room-not-found error - and the room is recorded
with that sole member and `moderator = none`; moreover a `none`
moderator survives every later step while the room exists, and in any
state whose room has `moderator = none` every kick/ban/promote/rename
request from a member is answered with the only-moderator error and
changes nothing. -/
theorem lazy_room_creation_moderatorless {s : ServerState} {c : Conn}
    {info : Session} {rid : String} {pw : Option String}
    (hreg : alistFind c s.clients = some info)
    (hmiss : alistFind rid s.rooms = none)
    (hnr : info.room ≠ some rid) :
    ((c, ServerMsg.roomJoined rid [] false none false none) ∈
        (handle_message s c (.joinRoom rid pw)).sends ∧
      alistFind rid (handle_message s c (.joinRoom rid pw)).state.rooms =
        some ⟨[c], none, none, none, []⟩) ∧
    (∀ s2 e r2 r3, alistFind rid s2.rooms = some r2 → r2.moderator = none →
      alistFind rid (step s2 e).state.rooms = some r3 → r3.moderator = none) ∧
    (∀ s2 c2 i2 r2 tid, alistFind c2 s2.clients = some i2 → i2.room = some rid →
      alistFind rid s2.rooms = some r2 → r2.moderator = none →
      handle_message s2 c2 (.kickUser tid) =
        ⟨s2, [(c2, .error "Only moderator can kick users")], []⟩) ∧
    (∀ s2 c2 i2 r2 tid, alistFind c2 s2.clients = some i2 → i2.room = some rid →
      alistFind rid s2.rooms = some r2 → r2.moderator = none →
      handle_message s2 c2 (.banUser tid) =
        ⟨s2, [(c2, .error "Only moderator can ban users")], []⟩) ∧
    (∀ s2 c2 i2 r2 tid, alistFind c2 s2.clients = some i2 → i2.room = some rid →
      alistFind rid s2.rooms = some r2 → r2.moderator = none →
      handle_message s2 c2 (.promoteModerator tid) =
        ⟨s2, [(c2, .error "Only moderator can promote users")], []⟩) ∧
    (∀ s2 c2 i2 r2 tid nm, alistFind c2 s2.clients = some i2 → i2.room = some rid →
      alistFind rid s2.rooms = some r2 → r2.moderator = none →
      handle_message s2 c2 (.moderatorChangeName tid nm) =
        ⟨s2, [(c2, .error "Only moderator can change user names")], []⟩) := by
  have hdenied : ∀ s2 (i2 : Session) (r2 : Room), i2.room = some rid →
      alistFind rid s2.rooms = some r2 → r2.moderator = none →
      modGate s2 i2 = .denied := by
    intro s2 i2 r2 hirm hfr2 hmod
    unfold modGate
    rw [hirm]
    by_cases hrid : rid = ""
    · simp [hrid]
    · simp [hrid, hfr2, hmod]
  refine ⟨?_, ?_, ?_, ?_, ?_, ?_⟩
  · -- the join itself
    have hclients1 : (create_room s rid none none none).clients = s.clients :=
      create_room_clients s rid none none none
    have hfind1 : alistFind c (create_room s rid none none none).clients = some info := by
      rw [hclients1]
      exact hreg
    have hfresh1 : alistFind rid (create_room s rid none none none).rooms =
        some ⟨[], none, none, none, []⟩ := by
      have := @create_room_find_self s rid none none none hmiss
      simpa [truthyOptStr] using this
    have hstep : handle_message s c (.joinRoom rid pw) =
        ⟨(join_room (create_room s rid none none none) c rid pw).1,
         (join_room (create_room s rid none none none) c rid pw).2.1, []⟩ := by
      simp only [handle_message, hmiss, Option.isNone_none, if_true]
    have hjoin : join_room (create_room s rid none none none) c rid pw =
        joinCommit (create_room s rid none none none) c info rid := by
      simp [join_room, hfind1, hfresh1, requiredPw, truthyOptStr]
    -- the leave preamble never touches the fresh room
    obtain ⟨i1, hfi1, hrooms1⟩ :
        ∃ i1, alistFind c
            (leavePhase (create_room s rid none none none) c info).1.clients = some i1 ∧
          alistFind rid
            (leavePhase (create_room s rid none none none) c info).1.rooms =
            some ⟨[], none, none, none, []⟩ := by
      by_cases htr : truthyOptStr info.room
      · rcases hlv : leave_room (create_room s rid none none none) c with _ | p
        · exact absurd (leave_room_isSome hfind1) (by simp [hlv])
        obtain ⟨s2, ls⟩ := p
        have hlp : leavePhase (create_room s rid none none none) c info = (s2, ls) := by
          simp [leavePhase, htr, hlv]
        obtain ⟨i1, hfi1⟩ := leave_room_clients_self hlv
        have hro : alistFind rid s2.rooms =
            alistFind rid (create_room s rid none none none).rooms := by
          refine leave_room_find_other hlv ?_
          intro info0 h0
          rw [hfind1] at h0
          have hi0 : info0 = info := Option.some_inj.mp h0.symm
          rw [hi0]
          exact hnr
        refine ⟨i1, ?_, ?_⟩
        · rw [hlp]
          exact hfi1
        · rw [hlp]
          show alistFind rid s2.rooms = _
          rw [hro]
          exact hfresh1
      · have hlp : leavePhase (create_room s rid none none none) c info =
            (create_room s rid none none none, []) := by
          simp [leavePhase, htr]
        exact ⟨info, by rw [hlp]; exact hfind1, by rw [hlp]; exact hfresh1⟩
    have hcommit : joinCommit (create_room s rid none none none) c info rid =
        commitCore (leavePhase (create_room s rid none none none) c info).1 c rid i1
          ⟨[], none, none, none, []⟩
          (leavePhase (create_room s rid none none none) c info).2 := by
      simp only [joinCommit, hfi1, hrooms1]
    rw [hstep, hjoin, hcommit, commitCore_fresh]
    constructor
    · exact List.mem_append.mpr (Or.inr (List.mem_singleton.mpr rfl))
    · exact alistFind_set_self rid _ _
  · intro s2 e r2 r3 h1 h2 h3
    exact (step_moderator h1 h3).trans h2
  · intro s2 c2 i2 r2 tid hfc2 hirm hfr2 hmod
    simp [handle_message, hfc2, hdenied s2 i2 r2 hirm hfr2 hmod]
  · intro s2 c2 i2 r2 tid hfc2 hirm hfr2 hmod
    simp [handle_message, hfc2, hdenied s2 i2 r2 hirm hfr2 hmod]
  · intro s2 c2 i2 r2 tid hfc2 hirm hfr2 hmod
    simp [handle_message, hfc2, hdenied s2 i2 r2 hirm hfr2 hmod]
  · intro s2 c2 i2 r2 tid nm hfc2 hirm hfr2 hmod
    simp [handle_message, hfc2, hdenied s2 i2 r2 hirm hfr2 hmod]

/-- One registered, roomless client. -/
def stateReg : ServerState := ⟨[(0, ⟨"a", none, "alice"⟩)], []⟩

theorem lazy_room_creation_moderatorless_witness :
    (0, ServerMsg.roomJoined "r" [] false none false none) ∈
        (handle_message stateReg 0 (.joinRoom "r" none)).sends ∧
    alistFind "r" (handle_message stateReg 0 (.joinRoom "r" none)).state.rooms =
      some ⟨[0], none, none, none, []⟩ :=
  (@lazy_room_creation_moderatorless stateReg 0 ⟨"a", none, "alice"⟩ "r" none
    (by decide) (by decide) (by decide)).1

/-! C10.  A join-room envelope for a nonexistent room from a
never-registered connection: the router creates the room (source line
427), then `join_room` raises `KeyError` at `clients[websocket]`
(line 262), which the catch-all at lines 654-657 logs; no reply is
sent, the registry is untouched, and the fresh zero-member room stays
in the directory. -/

/-- C10: a join-room for a missing roomId from an unregistered
connection creates the room with no password, moderator, chat binding
or bans, then aborts: no message is sent to anyone, the session
registry is unchanged, and the new empty room is retained. -/
theorem unregistered_lazy_join_aborts_silently {s : ServerState} {c : Conn}
    {rid : String} {pw : Option String}
    (hunreg : alistFind c s.clients = none)
    (hmiss : alistFind rid s.rooms = none) :
    handle_message s c (.joinRoom rid pw) =
      ⟨{ s with rooms := alistSet rid ⟨[], none, none, none, []⟩ s.rooms }, [], []⟩ ∧
    alistFind rid (handle_message s c (.joinRoom rid pw)).state.rooms =
      some ⟨[], none, none, none, []⟩ ∧
    (handle_message s c (.joinRoom rid pw)).state.clients = s.clients := by
  have hcreate : create_room s rid none none none =
      { s with rooms := alistSet rid ⟨[], none, none, none, []⟩ s.rooms } := by
    simp [create_room, hmiss, truthyOptStr]
  have hfind1 : alistFind c (create_room s rid none none none).clients = none := by
    rw [create_room_clients]
    exact hunreg
  have h1 : handle_message s c (.joinRoom rid pw) =
      ⟨{ s with rooms := alistSet rid ⟨[], none, none, none, []⟩ s.rooms }, [], []⟩ := by
    simp only [handle_message, hmiss, Option.isNone_none, if_true]
    simp only [join_room, hfind1]
    rw [hcreate]
  refine ⟨h1, ?_, ?_⟩
  · rw [h1]
    exact alistFind_set_self rid _ s.rooms
  · rw [h1]

/-- Shared helper: the four failure branches of `join_room` (source
lines 266-296), each returning the state untouched together with its
distinctive reply. -/
theorem join_room_fail_eqs {s : ServerState} {c : Conn} {info : Session}
    (hreg : alistFind c s.clients = some info) :
    (∀ rid pw, alistFind rid s.rooms = none →
      join_room s c rid pw =
        (s, [(c, .error "Room does not exist")], .roomNotFound)) ∧
    (∀ rid pw r, alistFind rid s.rooms = some r → info.id ∈ r.banned →
      join_room s c rid pw =
        (s, [(c, .error "You have been banned from this room")], .bannedUser)) ∧
    (∀ rid pw r, alistFind rid s.rooms = some r → info.id ∉ r.banned →
      requiredPw r.password = true → truthyOptStr pw = false →
      join_room s c rid pw = (s, [(c, .passwordRequired rid)], .passwordRequiredO)) ∧
    (∀ rid pw r, alistFind rid s.rooms = some r → info.id ∉ r.banned →
      requiredPw r.password = true → truthyOptStr pw = true →
      pw.map hash_password ≠ r.password →
      join_room s c rid pw = (s, [(c, .error "Incorrect password")], .incorrectPassword)) := by
  refine ⟨?_, ?_, ?_, ?_⟩
  · intro rid pw h
    simp [join_room, hreg, h]
  · intro rid pw r hfr hban
    simp [join_room, hreg, hfr, hban]
  · intro rid pw r hfr hban hreq htp
    simp [join_room, hreg, hfr, hban, hreq, htp]
  · intro rid pw r hfr hban hreq htp hneq
    simp [join_room, hreg, hfr, hban, hreq, htp, hneq]

/-! C2.  The ordered, short-circuiting checks of `join_room` (source
lines 260-296) with pairwise distinct outcomes. -/

/-- C2: for a registered requester, `join_room` runs its checks in a
fixed short-circuit order: missing room yields the room-not-found
error; otherwise a banned clientId yields the banned error - no
password is consulted and no membership history matters; otherwise a
required-but-absent (or empty, which Python treats as absent) password
yields `password-required`; otherwise a required-but-mismatched digest
yields the incorrect-password error - and the four outcomes, in
particular incorrect-password versus room-not-found, are pairwise
distinct. -/
theorem join_room_checks_ordered_distinct {s : ServerState} {c : Conn} {info : Session}
    (hreg : alistFind c s.clients = some info) :
    (∀ rid pw, alistFind rid s.rooms = none →
      join_room s c rid pw =
        (s, [(c, .error "Room does not exist")], .roomNotFound)) ∧
    (∀ rid pw r, alistFind rid s.rooms = some r → info.id ∈ r.banned →
      join_room s c rid pw =
        (s, [(c, .error "You have been banned from this room")], .bannedUser)) ∧
    (∀ rid pw r, alistFind rid s.rooms = some r → info.id ∉ r.banned →
      requiredPw r.password = true → truthyOptStr pw = false →
      join_room s c rid pw = (s, [(c, .passwordRequired rid)], .passwordRequiredO)) ∧
    (∀ rid pw r, alistFind rid s.rooms = some r → info.id ∉ r.banned →
      requiredPw r.password = true → truthyOptStr pw = true →
      pw.map hash_password ≠ r.password →
      join_room s c rid pw = (s, [(c, .error "Incorrect password")], .incorrectPassword)) ∧
    (ServerMsg.error "Incorrect password" ≠ ServerMsg.error "Room does not exist" ∧
      List.Nodup [JoinOutcome.roomNotFound, JoinOutcome.bannedUser,
        JoinOutcome.passwordRequiredO, JoinOutcome.incorrectPassword]) := by
  obtain ⟨h1, h2, h3, h4⟩ := join_room_fail_eqs hreg
  exact ⟨h1, h2, h3, h4, by decide, by decide⟩

/-- Room `p` guards itself with password `secret`; connection 0 is its
moderator-member, connection 1 is registered and roomless, and
clientId `x` is banned. -/
def statePwd : ServerState :=
  ⟨[(0, ⟨"a", some "p", "alice"⟩), (1, ⟨"b", none, "bob"⟩)],
   [("p", ⟨[0], some (hash_password "secret"), none, some "a", ["b"]⟩)]⟩

theorem join_room_checks_ordered_distinct_witness :
    join_room statePwd 1 "nosuch" none =
      (statePwd, [(1, .error "Room does not exist")], .roomNotFound) ∧
    join_room statePwd 1 "p" (some "secret") =
      (statePwd, [(1, .error "You have been banned from this room")], .bannedUser) ∧
    join_room statePwd 0 "p" none =
      (statePwd, [(0, .passwordRequired "p")], .passwordRequiredO) ∧
    join_room statePwd 0 "p" (some "wrong") =
      (statePwd, [(0, .error "Incorrect password")], .incorrectPassword) :=
  ⟨(@join_room_checks_ordered_distinct statePwd 1 ⟨"b", none, "bob"⟩
     (by decide)).1 "nosuch" none (by decide),
   (@join_room_checks_ordered_distinct statePwd 1 ⟨"b", none, "bob"⟩
     (by decide)).2.1 "p" (some "secret")
     ⟨[0], some (hash_password "secret"), none, some "a", ["b"]⟩
     (by decide) (by decide),
   (@join_room_checks_ordered_distinct statePwd 0 ⟨"a", some "p", "alice"⟩
     (by decide)).2.2.1 "p" none
     ⟨[0], some (hash_password "secret"), none, some "a", ["b"]⟩
     (by decide) (by decide) (by decide) (by decide),
   (@join_room_checks_ordered_distinct statePwd 0 ⟨"a", some "p", "alice"⟩
     (by decide)).2.2.2.1 "p" (some "wrong")
     ⟨[0], some (hash_password "secret"), none, some "a", ["b"]⟩
     (by decide) (by decide) (by decide) (by decide) (by decide)⟩

/-! C5.  Validation errors: reply to the requester, no state change.
The claim also listed "unknown target"; the code sends no reply at all
for an unknown target (the search loops at lines 507-514, 533-540,
583-602, 620-644 simply find nothing), so that part fails - see the
counterexample - and the amended claim covers the remaining errors. -/

/-- C5 counterexample: the moderator promotes an unknown clientId; the
claim as stated demands a structured error event, but the server sends
nothing to anyone (and changes nothing). -/
theorem unknown_target_promote_sends_nothing :
    handle_message stateAB 0 (.promoteModerator "zzz") = ⟨stateAB, [], []⟩ := by
  decide

/-- C5 (amended): each validation error - room not found, banned,
missing password, incorrect password, and every not-moderator
rejection - is reported to the requesting connection as its structured
event and leaves the whole state unchanged (so a failed join leaves
the requester in its prior room); unknown-target actions are excluded:
they produce no reply (and ban-user records the ban regardless). -/
theorem validation_errors_report_and_preserve_state {s : ServerState} {c : Conn}
    {info : Session} (hreg : alistFind c s.clients = some info) :
    (∀ rid pw, alistFind rid s.rooms = none →
      join_room s c rid pw =
        (s, [(c, .error "Room does not exist")], .roomNotFound)) ∧
    (∀ rid pw r, alistFind rid s.rooms = some r → info.id ∈ r.banned →
      join_room s c rid pw =
        (s, [(c, .error "You have been banned from this room")], .bannedUser)) ∧
    (∀ rid pw r, alistFind rid s.rooms = some r → info.id ∉ r.banned →
      requiredPw r.password = true → truthyOptStr pw = false →
      join_room s c rid pw = (s, [(c, .passwordRequired rid)], .passwordRequiredO)) ∧
    (∀ rid pw r, alistFind rid s.rooms = some r → info.id ∉ r.banned →
      requiredPw r.password = true → truthyOptStr pw = true →
      pw.map hash_password ≠ r.password →
      join_room s c rid pw = (s, [(c, .error "Incorrect password")], .incorrectPassword)) ∧
    (∀ tid, modGate s info = .denied →
      handle_message s c (.kickUser tid) =
        ⟨s, [(c, .error "Only moderator can kick users")], []⟩) ∧
    (∀ tid, modGate s info = .denied →
      handle_message s c (.banUser tid) =
        ⟨s, [(c, .error "Only moderator can ban users")], []⟩) ∧
    (∀ tid, modGate s info = .denied →
      handle_message s c (.promoteModerator tid) =
        ⟨s, [(c, .error "Only moderator can promote users")], []⟩) ∧
    (∀ tid nm, modGate s info = .denied →
      handle_message s c (.moderatorChangeName tid nm) =
        ⟨s, [(c, .error "Only moderator can change user names")], []⟩) := by
  obtain ⟨h1, h2, h3, h4⟩ := join_room_fail_eqs hreg
  refine ⟨h1, h2, h3, h4, ?_, ?_, ?_, ?_⟩
  · intro tid hg
    simp [handle_message, hreg, hg]
  · intro tid hg
    simp [handle_message, hreg, hg]
  · intro tid hg
    simp [handle_message, hreg, hg]
  · intro tid nm hg
    simp [handle_message, hreg, hg]

theorem validation_errors_report_and_preserve_state_witness :
    handle_message stateAB 1 (.kickUser "a") =
      ⟨stateAB, [(1, .error "Only moderator can kick users")], []⟩ ∧
    handle_message stateAB 1 (.banUser "a") =
      ⟨stateAB, [(1, .error "Only moderator can ban users")], []⟩ ∧
    join_room stateAB 1 "nosuch" none =
      (stateAB, [(1, .error "Room does not exist")], .roomNotFound) :=
  ⟨(@validation_errors_report_and_preserve_state stateAB 1 ⟨"b", some "r", "bob"⟩
     (by decide)).2.2.2.2.1 "a" (by decide),
   (@validation_errors_report_and_preserve_state stateAB 1 ⟨"b", some "r", "bob"⟩
     (by decide)).2.2.2.2.2.1 "a" (by decide),
   (@validation_errors_report_and_preserve_state stateAB 1 ⟨"b", some "r", "bob"⟩
     (by decide)).1 "nosuch" none (by decide)⟩

/-! C6.  Ban (source lines 521-547): the target id is recorded first,
unconditionally; a present member is then notified and closed; and the
recorded ban blocks any later join before the password gate
(lines 274-280). -/

/-- C6: when a room's moderator bans a target clientId, the id is
added to the banned set unconditionally - member or not - and the
sessions are untouched; the recorded ban then persists across every
later event sequence the room survives, and in any state where the
ban is recorded every join-room attempt by a session carrying that
clientId - including a session registered only after the ban, as on a
reconnect - is rejected as banned whatever password it offers, before
the password gate and with the state unchanged; if a member with that
clientId is present at ban time it also receives the banned event and
its connection is closed. -/
theorem ban_unconditional_and_blocks_rejoin {s : ServerState} {c : Conn}
    {info : Session} {rid tid : String} {r : Room}
    (hreg : alistFind c s.clients = some info)
    (hrm : info.room = some rid) (hrid : rid ≠ "")
    (hr : alistFind rid s.rooms = some r) (hmod : r.moderator = some info.id) :
    alistFind rid (handle_message s c (.banUser tid)).state.rooms =
      some { r with banned := setAdd tid r.banned } ∧
    tid ∈ setAdd tid r.banned ∧
    (handle_message s c (.banUser tid)).state.clients = s.clients ∧
    (∀ es, roomLivesAlong (handle_message s c (.banUser tid)).state rid es →
      BanRecorded (runEvents (handle_message s c (.banUser tid)).state es) rid tid) ∧
    (∀ t c2 i2 pw, BanRecorded t rid tid →
      alistFind c2 t.clients = some i2 → i2.id = tid →
      handle_message t c2 (.joinRoom rid pw) =
        ⟨t, [(c2, .error "You have been banned from this room")], []⟩ ∧
      join_room t c2 rid pw =
        (t, [(c2, .error "You have been banned from this room")], .bannedUser)) ∧
    (∀ w j, findTarget s tid rid = some (w, j) →
      (w, ServerMsg.banned "You have been banned from this room") ∈
        (handle_message s c (.banUser tid)).sends ∧
      w ∈ (handle_message s c (.banUser tid)).closes) := by
  have hgate : modGate s info = .granted rid r := by
    simp [modGate, hrm, hrid, hr, hmod]
  have hsame : findTarget ({ s with
      rooms := alistSet rid { r with banned := setAdd tid r.banned } s.rooms }) tid rid =
      findTarget s tid rid := rfl
  have hstate : (handle_message s c (.banUser tid)).state =
      { s with rooms := alistSet rid { r with banned := setAdd tid r.banned } s.rooms } := by
    simp only [handle_message, hreg, hgate, hsame]
    rcases ht : findTarget s tid rid with _ | wj
    · rfl
    · obtain ⟨w, j⟩ := wj
      rfl
  have hrec : BanRecorded (handle_message s c (.banUser tid)).state rid tid := by
    rw [hstate]
    exact ⟨_, alistFind_set_self rid _ s.rooms, mem_setAdd.mpr (Or.inr rfl)⟩
  refine ⟨?_, mem_setAdd.mpr (Or.inr rfl), ?_, ?_, ?_, ?_⟩
  · rw [hstate]
    exact alistFind_set_self rid _ s.rooms
  · rw [hstate]
  · intro es hl
    exact ban_persists_while_room_lives es _ hrec hl
  · intro t c2 i2 pw hb hfc2 hid
    obtain ⟨r2, hfr2, hmem2⟩ := hb
    have hban2 : i2.id ∈ r2.banned := by
      rw [hid]
      exact hmem2
    have hjr : join_room t c2 rid pw =
        (t, [(c2, .error "You have been banned from this room")], .bannedUser) := by
      simp [join_room, hfc2, hfr2, hban2]
    refine ⟨?_, hjr⟩
    simp only [handle_message, hfr2, Option.isNone_some, Bool.false_eq_true, if_false, hjr]
  · intro w j ht
    simp only [handle_message, hreg, hgate, hsame, ht]
    exact ⟨List.mem_singleton.mpr rfl, List.mem_singleton.mpr rfl⟩

theorem ban_unconditional_and_blocks_rejoin_witness :
    alistFind "r" (handle_message stateAB 0 (.banUser "b")).state.rooms =
      some ⟨[0, 1], none, none, some "a", ["b"]⟩ ∧
    (handle_message stateAB 0 (.banUser "b")).state.clients = stateAB.clients ∧
    BanRecorded (runEvents (handle_message stateAB 0 (.banUser "b")).state
      [.disconnect 1, .msg 1 (.register "b" (some "bob"))]) "r" "b" ∧
    handle_message (runEvents (handle_message stateAB 0 (.banUser "b")).state
        [.disconnect 1, .msg 1 (.register "b" (some "bob"))]) 1
        (.joinRoom "r" (some "secret")) =
      ⟨runEvents (handle_message stateAB 0 (.banUser "b")).state
        [.disconnect 1, .msg 1 (.register "b" (some "bob"))],
       [(1, .error "You have been banned from this room")], []⟩ ∧
    (1, ServerMsg.banned "You have been banned from this room") ∈
      (handle_message stateAB 0 (.banUser "b")).sends ∧
    1 ∈ (handle_message stateAB 0 (.banUser "b")).closes := by
  have hT := @ban_unconditional_and_blocks_rejoin stateAB 0 ⟨"a", some "r", "alice"⟩ "r" "b"
    ⟨[0, 1], none, none, some "a", []⟩ (by decide) (by decide) (by decide) (by decide)
    (by decide)
  have hBan := hT.2.2.2.1 [.disconnect 1, .msg 1 (.register "b" (some "bob"))] (by decide)
  refine ⟨hT.1, hT.2.2.1, hBan, ?_,
    (hT.2.2.2.2.2 1 ⟨"b", some "r", "bob"⟩ (by decide)).1,
    (hT.2.2.2.2.2 1 ⟨"b", some "r", "bob"⟩ (by decide)).2⟩
  exact (hT.2.2.2.2.1 _ 1 ⟨"b", none, "bob"⟩ (some "secret") hBan (by decide) rfl).1

theorem unregistered_lazy_join_aborts_silently_witness :
    handle_message initialState 0 (.joinRoom "r" none) =
      ⟨{ initialState with
          rooms := alistSet "r" ⟨[], none, none, none, []⟩ initialState.rooms }, [], []⟩ ∧
    alistFind "r" (handle_message initialState 0 (.joinRoom "r" none)).state.rooms =
      some ⟨[], none, none, none, []⟩ ∧
    (handle_message initialState 0 (.joinRoom "r" none)).state.clients =
      initialState.clients :=
  unregistered_lazy_join_aborts_silently (by decide) (by decide)

end Sig

